import Mathlib

/-!
Verification development for the dynamic-context-pruning core.

The definitions below are a shallow embedding of the repository's source:
`src/openclaw-extension/src/core.js`, `config.js`, `tools.js`, `state.js`,
`src/lib/strategies/deduplication.ts` and the OpenAI-Responses format
adapter.  JavaScript `Map`s are modelled as association lists with
JS `Map.set` semantics (replace in place, else append); `Date.now()` is an
explicit `now : Nat` argument; machine numbers that can be `NaN`/`Infinity`
are modelled by the inductive `JsNum`.  All functions are pure: the mutated
state is returned alongside the result.
-/

/-- JS `String.toLowerCase`, written on the character list so that it
evaluates inside the kernel (ASCII case folding, which covers every tool
name and id in the sources and tests). -/
def jsToLower (s : String) : String :=
  String.mk (s.data.map Char.toLower)

/-- JS `String.trim`: strips whitespace from both ends. -/
def jsTrim (s : String) : String :=
  String.mk (((s.data.dropWhile Char.isWhitespace).reverse.dropWhile Char.isWhitespace).reverse)

namespace DCP

/-- Content of a message as seen by `estimateChars` in core.js: a string, a
nullish value, or some other JSON value carrying the length of its
`JSON.stringify` serialization (the only fact about non-string content the
source ever uses). -/
inductive JsContent where
  | nullC : JsContent
  | strC (s : String) : JsContent
  | objC (stringifyLength : Nat) : JsContent
deriving DecidableEq, Repr

/-- JavaScript number argument as accepted by `sweep`'s `limit` parameter:
`NaN`, the infinities, or an integral finite value (the claims and tests use
only integral limits). -/
inductive JsNum where
  | nan : JsNum
  | posInf : JsNum
  | negInf : JsNum
  | num (n : Int) : JsNum
deriving DecidableEq, Repr

/-- Lookup in a JS `Map` modelled as an association list (`Map.get`);
lists built by `jsMapSet` have unique keys, so first-match lookup is the
`Map` semantics. -/
def jsMapGet {α : Type} : List (String × α) → String → Option α
  | [], _ => none
  | p :: rest, k => if p.1 == k then some p.2 else jsMapGet rest k

/-- Membership test in a JS `Map` (`Map.has`). -/
def jsMapHas {α : Type} : List (String × α) → String → Bool
  | [], _ => false
  | p :: rest, k => p.1 == k || jsMapHas rest k

/-- Update of a JS `Map` (`Map.set`): replaces the value at the existing
key in place, otherwise appends, preserving insertion order. -/
def jsMapSet {α : Type} : List (String × α) → String → α → List (String × α)
  | [], k, v => [(k, v)]
  | p :: rest, k, v => if p.1 == k then (k, v) :: rest else p :: jsMapSet rest k v

/-- Pruning annotation attached under `meta.dcp` by `createTransformedView`. -/
structure DcpMetaInfo where
  pruned : Bool
  originalID : String
  reason : String
  distillationID : Option String
deriving DecidableEq, Repr

/-- Free-form `meta` object of a message; the source only ever reads and
writes its `dcp` field. -/
structure DcpMeta where
  dcp : Option DcpMetaInfo := none
deriving DecidableEq, Repr

/-- Tool input object of a message as read by `inferFilePath` in core.js
(only the `filePath` and `path` string fields are ever consulted). -/
structure DcpInput where
  filePath : Option String := none
  path : Option String := none
deriving DecidableEq, Repr

/-- Message shape from `types.js` (`DcpMessage`): `id` is a required string
per the declared data model, the remaining fields are optional. -/
structure DcpMessage where
  id : String
  role : Option String := none
  toolName : Option String := none
  content : JsContent := JsContent.nullC
  input : Option DcpInput := none
  filePath : Option String := none
  meta : Option DcpMeta := none
deriving DecidableEq, Repr

/-- Embedding of `PrunedRecord` from `types.js`; `atTime` models the `at` timestamp field
(`at` is a Lean keyword). -/
structure PrunedRecord where
  reason : String
  toolName : Option String
  chars : Nat
  atTime : Nat
  distillationID : Option String
deriving DecidableEq, Repr

/-- Embedding of `DistillationRecord` from `types.js`. -/
structure DistillationRecord where
  id : String
  sourceMessageIDs : List String
  summary : String
  atTime : Nat
deriving DecidableEq, Repr

/-- Inventory entry exposed by `getPrunableInventory`. -/
structure InventoryEntry where
  id : String
  messageID : String
  role : String
  toolName : String
  chars : Nat
  estimatedTokens : Nat
deriving DecidableEq, Repr

/-- Pre-numbering entry built by the first loop of `getPrunableInventory`. -/
structure BaseEntry where
  messageID : String
  role : String
  toolName : String
  chars : Nat
  estimatedTokens : Nat
deriving DecidableEq, Repr

/-- Identity-map entry maintained by `createTransformedView`. -/
structure IdMapEntry where
  originalID : String
  transformedID : String
  pruned : Bool
deriving DecidableEq, Repr

/-- Inventory cache stored in the session state. -/
structure Inventory where
  signature : String
  entries : List InventoryEntry
  numericToMessageID : List (String × String)
  messageToNumericID : List (String × String)
deriving DecidableEq, Repr

/-- Running counters of the session state. -/
structure Counters where
  prunedMessages : Nat
  prunedChars : Nat
  distillations : Nat
  sweeps : Nat
deriving DecidableEq, Repr

/-- Embedding of `DcpState` from `types.js`. -/
structure DcpState where
  prunedByID : List (String × PrunedRecord)
  idMap : List (String × IdMapEntry)
  distillationBySourceID : List (String × String)
  distillations : List DistillationRecord
  inventory : Inventory
  counters : Counters
deriving DecidableEq, Repr

/-- Embedding of `createState` from `state.js`. -/
def createState : DcpState :=
  { prunedByID := []
    idMap := []
    distillationBySourceID := []
    distillations := []
    inventory := { signature := "", entries := [], numericToMessageID := [], messageToNumericID := [] }
    counters := { prunedMessages := 0, prunedChars := 0, distillations := 0, sweeps := 0 } }

/-- Raw (unvalidated) configuration as accepted by `normalizeConfig` in
`config.js`.  Fields absent in the raw object are `none`; the source's
dropping of non-string array elements is subsumed by typing the arrays as
string lists (the `length > 0` filter is kept).  The nested
`commands.enabled` flag is flattened to `commandsEnabled`. -/
structure RawConfig where
  enabled : Option Bool := none
  protectedTools : Option (List String) := none
  protectedFilePatterns : Option (List String) := none
  commandsEnabled : Option Bool := none
deriving DecidableEq, Repr

/-- Normalized configuration (`ExtensionConfig` in `types.js`). -/
structure ExtensionConfig where
  enabled : Bool
  protectedTools : List String
  protectedFilePatterns : List String
  commandsEnabled : Bool
deriving DecidableEq, Repr

/-- Embedding of `asStringArray` from `config.js`: keeps only non-empty strings. -/
def asStringArray (value : Option (List String)) : List String :=
  (value.getD []).filter (fun s => 0 < s.length)

/-- Embedding of `normalizeConfig` from `config.js`: malformed or missing fields fall back
to the defaults (`enabled := true`, empty lists, commands enabled). -/
def normalizeConfig (raw : RawConfig) : ExtensionConfig :=
  { enabled := raw.enabled.getD true
    protectedTools := asStringArray raw.protectedTools
    protectedFilePatterns := asStringArray raw.protectedFilePatterns
    commandsEnabled := raw.commandsEnabled.getD true }

/-- Re-injection of a normalized config as a raw value, modelling the
source's practice of passing an already-normalized config object back into
functions that call `normalizeConfig` again. -/
def ExtensionConfig.toRaw (c : ExtensionConfig) : RawConfig :=
  { enabled := some c.enabled
    protectedTools := some c.protectedTools
    protectedFilePatterns := some c.protectedFilePatterns
    commandsEnabled := some c.commandsEnabled }

/-- Tokenized glob pattern: literal character, `*` (any run of
non-separator characters) or `**` (any run of characters). -/
inductive GlobTok where
  | lit (c : Char) : GlobTok
  | star : GlobTok
  | dstar : GlobTok
deriving DecidableEq, Repr

/-- Tokenizer for `globMatch`'s pattern language: `**` before `*`, every
other character literal (mirroring the source's regex construction, which
escapes regex metacharacters; the source leaves `?` un-escaped, a JS-regex
artifact outside the documented glob language — the spec, tests and claims
use only `*`/`**` patterns, on which this tokenization is exact). -/
def globTokens : List Char → List GlobTok
  | [] => []
  | '*' :: '*' :: rest => GlobTok.dstar :: globTokens rest
  | '*' :: rest => GlobTok.star :: globTokens rest
  | c :: rest => GlobTok.lit c :: globTokens rest

/-- Matcher for tokenized glob patterns against a character list; `star`
consumes any run of non-`/` characters, `dstar` any run at all, exactly the
language of the source's `^...$`-anchored regex. -/
def globMatchToks : List GlobTok → List Char → Bool
  | [], [] => true
  | [], _ :: _ => false
  | GlobTok.lit _ :: _, [] => false
  | GlobTok.lit c :: ts, v :: vs => c == v && globMatchToks ts vs
  | GlobTok.star :: ts, [] => globMatchToks ts []
  | GlobTok.star :: ts, v :: vs =>
      globMatchToks ts (v :: vs) || (!(v == '/') && globMatchToks (GlobTok.star :: ts) vs)
  | GlobTok.dstar :: ts, [] => globMatchToks ts []
  | GlobTok.dstar :: ts, v :: vs =>
      globMatchToks ts (v :: vs) || globMatchToks (GlobTok.dstar :: ts) vs
termination_by ts vs => (vs.length, ts.length)

/-- Embedding of `globMatch` from core.js. -/
def globMatch (value pattern : String) : Bool :=
  globMatchToks (globTokens pattern.data) value.data

/-- Embedding of `DEFAULT_PROTECTED_TOOLS` from core.js. -/
def DEFAULT_PROTECTED_TOOLS : List String := ["dcp_prune", "dcp_distill"]

/-- Embedding of `inferFilePath` from core.js: direct `filePath` field first, then
`input.filePath`, then `input.path`, else the empty string. -/
def inferFilePath (message : DcpMessage) : String :=
  match message.filePath with
  | some s => s
  | none =>
    match message.input with
    | some input =>
      match input.filePath with
      | some s => s
      | none =>
        match input.path with
        | some s => s
        | none => ""
    | none => ""

/-- Embedding of `isProtectedMessage` from core.js: built-in protected set, then the
configured protected-tool list (case-insensitive), then file-glob patterns
on the inferred file path (an empty inferred path is falsy and protects
nothing). -/
def isProtectedMessage (message : DcpMessage) (config : ExtensionConfig) : Bool :=
  let toolName := match message.toolName with
    | some s => jsToLower s
    | none => ""
  if DEFAULT_PROTECTED_TOOLS.contains toolName then
    true
  else if toolName != "" && (config.protectedTools.map jsToLower).contains toolName then
    true
  else
    let filePath := inferFilePath message
    if filePath == "" then
      false
    else
      config.protectedFilePatterns.any (fun pattern => globMatch filePath pattern)

/-- Embedding of `isToolLikeMessage` from core.js. -/
def isToolLikeMessage (message : DcpMessage) : Bool :=
  message.role == some "tool" || message.toolName.isSome

/-- Embedding of `estimateChars` from core.js: string length, 0 for nullish values, the
`JSON.stringify` length otherwise. -/
def estimateChars (value : JsContent) : Nat :=
  match value with
  | JsContent.strC s => s.length
  | JsContent.nullC => 0
  | JsContent.objC n => n

/-- Embedding of `estimateTokens` from core.js: `Math.ceil(chars / 4)`, 0 for
non-positive input. -/
def estimateTokens (chars : Nat) : Nat :=
  if chars = 0 then 0 else (chars + 3) / 4

/-- Placeholder string built by `createTransformedView` for a pruned
message. -/
def prunedPlaceholder (messageID : String) (record : PrunedRecord) : String :=
  "[dcp-pruned id=" ++ messageID ++ " reason=" ++ record.reason ++
    (match record.distillationID with
     | some d => " distilled=" ++ d
     | none => "") ++ "]"

/-- Recursion of `createTransformedView` over the message list, threading
the `idMap` updates through the state. -/
def ctvGo : List DcpMessage → DcpState → List DcpMessage × DcpState
  | [], state => ([], state)
  | message :: rest, state =>
    let prunedRecord := jsMapGet state.prunedByID message.id
    let state' := { state with
      idMap := jsMapSet state.idMap message.id
        { originalID := message.id, transformedID := message.id, pruned := prunedRecord.isSome } }
    let message' := match prunedRecord with
      | none => message
      | some record =>
        { message with
          content := JsContent.strC (prunedPlaceholder message.id record)
          meta := some ⟨some ⟨true, message.id, record.reason, record.distillationID⟩⟩ }
    let result := ctvGo rest state'
    (message' :: result.1, result.2)

/-- Embedding of `createTransformedView` from core.js: a projection of the message list
with pruned entries replaced by placeholder content; the only state change
is the `idMap` cache refresh (message ids are strings per `types.js`, so the
source's `typeof` guard always passes). -/
def createTransformedView (messages : List DcpMessage) (state : DcpState) :
    List DcpMessage × DcpState :=
  ctvGo messages state

/-- Result record of `pruneByIDs`. -/
structure PruneResult where
  prunedIDs : List String
  protectedIDs : List String
  missingIDs : List String
deriving DecidableEq, Repr

/-- Lookup table `messagesByID` built at the top of `pruneByIDs`. -/
def buildMessagesByID (messages : List DcpMessage) : List (String × DcpMessage) :=
  messages.foldl (fun acc m => jsMapSet acc m.id m) []

/-- Loop body of `pruneByIDs`: classify each requested id as missing,
already pruned (silently skipped), protected, or prunable; prunable ids get
a `PrunedRecord` and bump the counters. -/
def pruneLoop (byID : List (String × DcpMessage)) (config : ExtensionConfig)
    (reason : String) (distillationID : Option String) (now : Nat) :
    List String → DcpState → List String → List String → List String →
    PruneResult × DcpState
  | [], state, pruned, protectedAcc, missing =>
    ({ prunedIDs := pruned, protectedIDs := protectedAcc, missingIDs := missing }, state)
  | messageID :: rest, state, pruned, protectedAcc, missing =>
    match jsMapGet byID messageID with
    | none =>
      pruneLoop byID config reason distillationID now rest state pruned protectedAcc
        (missing ++ [messageID])
    | some message =>
      if jsMapHas state.prunedByID messageID then
        pruneLoop byID config reason distillationID now rest state pruned protectedAcc missing
      else if isProtectedMessage message config then
        pruneLoop byID config reason distillationID now rest state pruned
          (protectedAcc ++ [messageID]) missing
      else
        let chars := estimateChars message.content
        let state' := { state with
          prunedByID := jsMapSet state.prunedByID messageID
            { reason := reason, toolName := message.toolName, chars := chars
              atTime := now, distillationID := distillationID }
          counters := { state.counters with
            prunedMessages := state.counters.prunedMessages + 1
            prunedChars := state.counters.prunedChars + chars } }
        pruneLoop byID config reason distillationID now rest state'
          (pruned ++ [messageID]) protectedAcc missing

/-- Embedding of `pruneByIDs` from core.js.  Total: missing and protected ids are
reported in the result, never thrown. -/
def pruneByIDs (messages : List DcpMessage) (state : DcpState) (rawConfig : RawConfig)
    (messageIDs : List String) (reason : String) (distillationID : Option String)
    (now : Nat) : PruneResult × DcpState :=
  let config := normalizeConfig rawConfig
  let byID := buildMessagesByID messages
  pruneLoop byID config reason distillationID now messageIDs state [] [] []

/-- Embedding of `lastUserIndex` from core.js: index of the last user-role message, `-1`
when there is none. -/
def lastUserIndex (messages : List DcpMessage) : Int :=
  match messages.reverse.findIdx? (fun m => m.role == some "user") with
  | some j => ((messages.length - 1 - j : Nat) : Int)
  | none => -1

/-- Embedding of `collectSweepCandidates` from core.js: ids of the tool-like messages
strictly after the last user message that are neither already pruned nor
protected, in document order. -/
def collectSweepCandidates (messages : List DcpMessage) (state : DcpState)
    (rawConfig : RawConfig) : List String :=
  let config := normalizeConfig rawConfig
  let startIndex := lastUserIndex messages
  ((messages.drop (startIndex + 1).toNat).filter
    (fun m =>
      isToolLikeMessage m && !(jsMapHas state.prunedByID m.id) && !(isProtectedMessage m config))).map
    (fun m => m.id)

/-- Last `n` elements of a list, JS `Array.slice(-n)` for positive `n`. -/
def lastSlice {α : Type} (l : List α) (n : Nat) : List α :=
  l.drop (l.length - n)

/-- Result record of `sweep`. -/
structure SweepResult where
  prunedIDs : List String
  protectedIDs : List String
  missingIDs : List String
  candidateCount : Nat
  usedLimit : Option JsNum
deriving DecidableEq, Repr

/-- Guard `typeof limit === "number" && Number.isFinite(limit) && limit > 0`
from `sweep`. -/
def limitActive (limit : Option JsNum) : Bool :=
  match limit with
  | some (JsNum.num n) => decide (0 < n)
  | _ => false

/-- Embedding of `sweep` from core.js: prune the collected candidates, keeping only the
last `limit` of them when a finite positive numeric limit is given; bump the
sweep counter only when something was pruned. -/
def sweep (messages : List DcpMessage) (state : DcpState) (rawConfig : RawConfig)
    (limit : Option JsNum) (now : Nat) : SweepResult × DcpState :=
  let config := normalizeConfig rawConfig
  let candidates := collectSweepCandidates messages state config.toRaw
  let capped := match limit with
    | some (JsNum.num n) => if 0 < n then lastSlice candidates n.toNat else candidates
    | _ => candidates
  let result := pruneByIDs messages state config.toRaw capped "sweep" none now
  let state' :=
    if 0 < result.1.prunedIDs.length then
      { result.2 with counters := { result.2.counters with sweeps := result.2.counters.sweeps + 1 } }
    else
      result.2
  ({ prunedIDs := result.1.prunedIDs
     protectedIDs := result.1.protectedIDs
     missingIDs := result.1.missingIDs
     candidateCount := candidates.length
     usedLimit := match limit with
       | some (JsNum.num n) => if 0 < n then some (JsNum.num n) else none
       | _ => none }, state')

/-- First loop of `getPrunableInventory`: the currently-prunable entries
(tool-like, not pruned, not protected) in document order. -/
def baseEntries (messages : List DcpMessage) (state : DcpState)
    (config : ExtensionConfig) : List BaseEntry :=
  messages.filterMap (fun m =>
    if isToolLikeMessage m && !(jsMapHas state.prunedByID m.id) && !(isProtectedMessage m config) then
      let chars := estimateChars m.content
      some { messageID := m.id
             role := m.role.getD ""
             toolName := m.toolName.getD ""
             chars := chars
             estimatedTokens := estimateTokens chars }
    else
      none)

/-- JS `Array.join("|")`. -/
def joinBar : List String → String
  | [] => ""
  | [x] => x
  | x :: y :: rest => x ++ "|" ++ joinBar (y :: rest)

/-- Signature string of `getPrunableInventory`: the `messageID:charCount`
pairs joined with `|`. -/
def entriesSignature (entries : List BaseEntry) : String :=
  joinBar (entries.map (fun e => e.messageID ++ ":" ++ toString e.chars))

/-- Numbering step of `getPrunableInventory`: numeric string ids "1", "2",
... assigned in document order (`entries.map((entry, index) => ...)`). -/
def numberEntries : Nat → List BaseEntry → List InventoryEntry
  | _, [] => []
  | i, e :: rest =>
    { id := toString (i + 1)
      messageID := e.messageID
      role := e.role
      toolName := e.toolName
      chars := e.chars
      estimatedTokens := e.estimatedTokens } :: numberEntries (i + 1) rest

/-- Embedding of `getPrunableInventory` from core.js: recomputes the numbered inventory
only when the signature (or entry count) changed; otherwise returns the
cached entry list and leaves the state untouched. -/
def getPrunableInventory (messages : List DcpMessage) (state : DcpState)
    (rawConfig : RawConfig) : List InventoryEntry × DcpState :=
  let config := normalizeConfig rawConfig
  let entries := baseEntries messages state config
  let signature := entriesSignature entries
  if state.inventory.signature == signature && state.inventory.entries.length == entries.length then
    (state.inventory.entries, state)
  else
    let inventoryEntries := numberEntries 0 entries
    let numericToMessageID :=
      inventoryEntries.foldl (fun acc e => jsMapSet acc e.id e.messageID) []
    let messageToNumericID :=
      inventoryEntries.foldl (fun acc e => jsMapSet acc e.messageID e.id) []
    (inventoryEntries,
     { state with inventory :=
        { signature := signature
          entries := inventoryEntries
          numericToMessageID := numericToMessageID
          messageToNumericID := messageToNumericID } })

/-- Result record of `resolveInventoryMessageIDs`. -/
structure ResolveResult where
  resolvedMessageIDs : List String
  missingIDs : List String
deriving DecidableEq, Repr

/-- Embedding of `resolveInventoryMessageIDs` from core.js: numeric id to message id
lookup against the current inventory; a missing or empty (falsy) mapping is
reported, not thrown. -/
def resolveInventoryMessageIDs (state : DcpState) (ids : List String) : ResolveResult :=
  let step := fun (acc : List String × List String) (id : String) =>
    match jsMapGet state.inventory.numericToMessageID id with
    | some messageID =>
      if messageID == "" then (acc.1, acc.2 ++ [id]) else (acc.1 ++ [messageID], acc.2)
    | none => (acc.1, acc.2 ++ [id])
  let out := ids.foldl step ([], [])
  { resolvedMessageIDs := out.1, missingIDs := out.2 }

/-- Embedding of `createDistillation` from core.js: appends a record with the next
sequential id and back-links every source message id to it. -/
def createDistillation (state : DcpState) (messageIDs : List String)
    (summary : String) (now : Nat) : DistillationRecord × DcpState :=
  let id := "dcp-distill-" ++ toString (state.counters.distillations + 1)
  let record : DistillationRecord :=
    { id := id, sourceMessageIDs := messageIDs, summary := summary, atTime := now }
  let state' := { state with
    distillations := state.distillations ++ [record]
    counters := { state.counters with distillations := state.counters.distillations + 1 }
    distillationBySourceID :=
      messageIDs.foldl (fun acc sourceID => jsMapSet acc sourceID id) state.distillationBySourceID }
  (record, state')

/-- Raw distillation target as received by `dcp_distill` in `tools.js`
before validation (either field may be missing). -/
structure RawTarget where
  id : Option String := none
  distillation : Option String := none
deriving DecidableEq, Repr

/-- Validated distillation target produced by `normalizeTargets`. -/
structure DistillTarget where
  id : String
  distillation : String
deriving DecidableEq, Repr

/-- Fallback summary text hard-coded in `normalizeTargets` in `tools.js`. -/
def DEFAULT_DISTILLATION_SUMMARY : String :=
  "Distilled context summary was not provided by the caller."

/-- Loop of `normalizeTargets`: drops targets without a non-empty id,
dedupes by id (first occurrence wins), trims the caller's summary text and
substitutes the fallback text when the trimmed text is empty. -/
def ntGo : List RawTarget → List String → List DistillTarget
  | [], _ => []
  | rawTarget :: rest, seenIDs =>
    let id := match rawTarget.id with
      | some s => if 0 < s.length then s else ""
      | none => ""
    let distillation := match rawTarget.distillation with
      | some s => if 0 < (jsTrim s).length then jsTrim s else DEFAULT_DISTILLATION_SUMMARY
      | none => DEFAULT_DISTILLATION_SUMMARY
    if id == "" then
      ntGo rest seenIDs
    else if seenIDs.contains id then
      ntGo rest seenIDs
    else
      { id := id, distillation := distillation } :: ntGo rest (seenIDs ++ [id])

/-- Embedding of `normalizeTargets` from `tools.js` (a non-array input yields no
targets). -/
def normalizeTargets (value : Option (List RawTarget)) : List DistillTarget :=
  match value with
  | none => []
  | some raws => ntGo raws []

/-- Summary of the transformed view returned by the tools in `tools.js`. -/
structure ViewSummary where
  totalMessages : Nat
  prunedMessages : Nat
  prunableInventorySize : Nat
deriving DecidableEq, Repr

/-- Embedding of `summarizeView` from `tools.js`, with the state mutations of
`createTransformedView` and `getPrunableInventory` made explicit. -/
def summarizeView (messages : List DcpMessage) (state : DcpState)
    (config : ExtensionConfig) : ViewSummary × DcpState :=
  let transformed := createTransformedView messages state
  let inventory := getPrunableInventory messages transformed.2 config.toRaw
  ({ totalMessages := transformed.1.length
     prunedMessages := (transformed.1.filter (fun message =>
       match message.meta with
       | some m => match m.dcp with
         | some d => d.pruned
         | none => false
       | none => false)).length
     prunableInventorySize := inventory.1.length }, inventory.2)

/-- Accumulators of the per-target loop of `dcp_distill`. -/
structure DistillAcc where
  distillations : List DistillationRecord
  prunedIDs : List String
  protectedIDs : List String
  missingIDs : List String
  unresolvedInventoryIDs : List String
deriving DecidableEq, Repr

/-- Per-target loop of `dcp_distill` in `tools.js`: resolve the inventory
id, create a distillation from the caller-normalized summary, then prune the
source message with the distillation id as reference. -/
def ddGo (messages : List DcpMessage) (config : ExtensionConfig) (now : Nat) :
    List DistillTarget → DcpState → DistillAcc → DistillAcc × DcpState
  | [], state, acc => (acc, state)
  | target :: rest, state, acc =>
    let resolved := resolveInventoryMessageIDs state [target.id]
    if 0 < resolved.missingIDs.length then
      ddGo messages config now rest state
        { acc with unresolvedInventoryIDs := acc.unresolvedInventoryIDs ++ resolved.missingIDs }
    else
      match resolved.resolvedMessageIDs with
      | [] => ddGo messages config now rest state acc
      | messageID :: _ =>
        let created := createDistillation state [messageID] target.distillation now
        let pruned := pruneByIDs messages created.2 config.toRaw [messageID] "distilled"
          (some created.1.id) now
        ddGo messages config now rest pruned.2
          { acc with
            distillations := acc.distillations ++ [created.1]
            prunedIDs := acc.prunedIDs ++ pruned.1.prunedIDs
            protectedIDs := acc.protectedIDs ++ pruned.1.protectedIDs
            missingIDs := acc.missingIDs ++ pruned.1.missingIDs }

/-- Result record of the `dcp_distill` tool. -/
structure DistillResult where
  distillations : List DistillationRecord
  targetsApplied : Nat
  prunedIDs : List String
  protectedIDs : List String
  missingIDs : List String
  unresolvedInventoryIDs : List String
  transformedView : ViewSummary
deriving DecidableEq, Repr

/-- Embedding of `dcp_distill` handler from `tools.js` (pure version; the runtime only
supplies the message array). -/
def dcpDistill (state : DcpState) (config : ExtensionConfig)
    (messages : List DcpMessage) (rawTargets : Option (List RawTarget))
    (now : Nat) : DistillResult × DcpState :=
  let inv := getPrunableInventory messages state config.toRaw
  let targets := normalizeTargets rawTargets
  let looped := ddGo messages config now targets inv.2
    { distillations := [], prunedIDs := [], protectedIDs := [], missingIDs := []
      unresolvedInventoryIDs := [] }
  let view := summarizeView messages looped.2 config
  ({ distillations := looped.1.distillations
     targetsApplied := targets.length
     prunedIDs := looped.1.prunedIDs
     protectedIDs := looped.1.protectedIDs
     missingIDs := looped.1.missingIDs
     unresolvedInventoryIDs := looped.1.unresolvedInventoryIDs
     transformedView := view.1 }, view.2)

/-- Concrete messages of the sweep scenario in claim C2:
`[u1, t1, t2, u2, t3, t4, t5]` with user messages `u1`, `u2` and
unprotected bash tool messages. -/
def sweepScenarioMessages : List DcpMessage :=
  [ { id := "u1", role := some "user", content := JsContent.strC "first" }
  , { id := "t1", role := some "tool", toolName := some "bash", content := JsContent.strC "old1" }
  , { id := "t2", role := some "tool", toolName := some "bash", content := JsContent.strC "old2" }
  , { id := "u2", role := some "user", content := JsContent.strC "second" }
  , { id := "t3", role := some "tool", toolName := some "bash", content := JsContent.strC "new1" }
  , { id := "t4", role := some "tool", toolName := some "bash", content := JsContent.strC "new2" }
  , { id := "t5", role := some "tool", toolName := some "bash", content := JsContent.strC "new3" } ]

/-- Raw configuration with no field set (normalizes to all defaults). -/
def emptyRawConfig : RawConfig := {}

/-- Message of the C4 counterexample: a tool message whose tool name
`dcp_prune` is in the built-in protected set. -/
def c4Message : DcpMessage :=
  { id := "t1", role := some "tool", toolName := some "dcp_prune"
    content := JsContent.strC "x" }

/-- State of the C4 counterexample: `t1` already carries a `PrunedRecord`
(reachable by pruning `t1` under an earlier configuration in which it was
not protected). -/
def c4State : DcpState :=
  { createState with prunedByID :=
      [("t1", { reason := "manual", toolName := some "dcp_prune", chars := 1
                atTime := 0, distillationID := none })] }

/-- Message of the C6 counterexample: a single prunable tool message. -/
def c6Message : DcpMessage :=
  { id := "m1", role := some "tool", toolName := some "bash"
    content := JsContent.strC "aaa" }

/-- Messages of the C3 counterexample, first session shape: two unprotected
tool messages with ids "a" (1 char of content) and "b:2|m2" (3 chars), so
the inventory signature is the string "a:1|b:2|m2:3". -/
def c3CollisionMessagesA : List DcpMessage :=
  [ { id := "a", role := some "tool", toolName := some "bash"
      content := JsContent.strC "x" }
  , { id := "b:2|m2", role := some "tool", toolName := some "bash"
      content := JsContent.strC "yyy" } ]

/-- Messages of the C3 counterexample, second session shape: tool messages
with ids "a:1|b" (2 chars of content) and "m2" (3 chars).  Because message
ids may themselves contain the separator characters ':' and '|', the
inventory signature is again the string "a:1|b:2|m2:3" with the same entry
count, although the prunable sets differ. -/
def c3CollisionMessagesB : List DcpMessage :=
  [ { id := "a:1|b", role := some "tool", toolName := some "bash"
      content := JsContent.strC "xx" }
  , { id := "m2", role := some "tool", toolName := some "bash"
      content := JsContent.strC "yyy" } ]

end DCP

namespace Dedup

/-! Embedding of `src/lib/strategies/deduplication.ts`: the tool-result
tracker with nudge injection (OpenAI chat format) and the exact-then-fuzzy
match resolver. -/

/-- Embedding of `ToolTracker` from deduplication.ts; the seen-id set keeps insertion
order. -/
structure ToolTracker where
  seenToolResultIds : List String
  toolResultCount : Nat
deriving DecidableEq, Repr

/-- Embedding of `createToolTracker` from deduplication.ts. -/
def createToolTracker : ToolTracker :=
  { seenToolResultIds := [], toolResultCount := 0 }

/-- Content part of a chat message as read by `countToolResults` (only the
`type` and `tool_use_id` fields are consulted). -/
structure ChatPartR where
  type : String := ""
  tool_use_id : Option String := none
deriving DecidableEq, Repr

/-- Chat-message content: absent, a plain string, or an array of parts. -/
inductive ChatContent where
  | missing : ChatContent
  | str (s : String) : ChatContent
  | arr (parts : List ChatPartR) : ChatContent
deriving DecidableEq, Repr

/-- Chat-format message as read by `countToolResults`/`appendNudge`. -/
structure ChatMsg where
  role : Option String := none
  tool_call_id : Option String := none
  content : ChatContent := ChatContent.missing
  synthetic : Bool := false
deriving DecidableEq, Repr

/-- JS truthiness of an optional string id (absent or empty is falsy). -/
def truthyId : Option String → Bool
  | some s => !(s == "")
  | none => false

/-- Inner loop of `countToolResults` over the parts of a user message. -/
def ctrParts : List ChatPartR → ToolTracker → Nat → Nat × ToolTracker
  | [], tracker, newCount => (newCount, tracker)
  | part :: rest, tracker, newCount =>
    if part.type == "tool_result" && truthyId part.tool_use_id then
      let id := jsToLower (part.tool_use_id.getD "")
      if tracker.seenToolResultIds.contains id then
        ctrParts rest tracker newCount
      else
        ctrParts rest { tracker with seenToolResultIds := tracker.seenToolResultIds ++ [id] }
          (newCount + 1)
    else
      ctrParts rest tracker newCount

/-- Outer loop of `countToolResults` over the messages. -/
def ctrGo : List ChatMsg → ToolTracker → Nat → Nat × ToolTracker
  | [], tracker, newCount => (newCount, tracker)
  | m :: rest, tracker, newCount =>
    if m.role == some "tool" && truthyId m.tool_call_id then
      let id := jsToLower (m.tool_call_id.getD "")
      if tracker.seenToolResultIds.contains id then
        ctrGo rest tracker newCount
      else
        ctrGo rest { tracker with seenToolResultIds := tracker.seenToolResultIds ++ [id] }
          (newCount + 1)
    else
      match m.role == some "user", m.content with
      | true, ChatContent.arr parts =>
        let inner := ctrParts parts tracker newCount
        ctrGo rest inner.2 inner.1
      | _, _ => ctrGo rest tracker newCount

/-- Embedding of `countToolResults` from deduplication.ts: records first-seen
(lower-cased) tool-result ids and adds the number of new ones to the
monotonic counter. -/
def countToolResults (messages : List ChatMsg) (tracker : ToolTracker) :
    Nat × ToolTracker :=
  let r := ctrGo messages tracker 0
  (r.1, { r.2 with toolResultCount := r.2.toolResultCount + r.1 })

/-- Synthetic trailing user message pushed by `appendNudge`. -/
def nudgeMessage (nudgeText : String) : ChatMsg :=
  { role := some "user", content := ChatContent.str nudgeText, synthetic := true }

/-- Embedding of `injectNudge` from deduplication.ts: count new tool results, then
append a nudge message exactly when the count crossed a multiple of `freq`
(`floor(prev/freq) < floor(new/freq)`).  Returns the (possibly extended)
message array, the updated tracker, and whether injection happened. -/
def injectNudge (messages : List ChatMsg) (tracker : ToolTracker)
    (nudgeText : String) (freq : Nat) : List ChatMsg × ToolTracker × Bool :=
  let prevCount := tracker.toolResultCount
  let counted := countToolResults messages tracker
  if 0 < counted.1 then
    if prevCount / freq < counted.2.toolResultCount / freq then
      (messages ++ [nudgeMessage nudgeText], counted.2, true)
    else
      (messages, counted.2, false)
  else
    (messages, counted.2, false)

/-- Sequence of `injectNudge` calls sharing one tracker (one call per
outgoing request); returns the per-call injection flags and the final
tracker. -/
def runNudges (freq : Nat) (nudgeText : String) :
    List (List ChatMsg) → ToolTracker → List Bool × ToolTracker
  | [], tracker => ([], tracker)
  | msgs :: rest, tracker =>
    let step := injectNudge msgs tracker nudgeText freq
    let restRun := runNudges freq nudgeText rest step.2.1
    (step.2.2 :: restRun.1, restRun.2)

/-- Message info carried by `WithParts` (only the id is read). -/
structure MsgInfo where
  id : String
deriving DecidableEq, Repr

/-- Input stored in a tool part's state: a string, or a non-string JSON
value carried together with its `JSON.stringify` rendering. -/
inductive ToolInputD where
  | strI (s : String) : ToolInputD
  | jsonI (repr : String) : ToolInputD
deriving DecidableEq, Repr

/-- State object of a tool part as read by `extractMessageContent`. -/
structure ToolPartState where
  status : String := ""
  output : Option String := none
  error : Option String := none
  input : Option ToolInputD := none
deriving DecidableEq, Repr

/-- Typed message part (`text`, `reasoning`, `tool`, `compaction`,
`subtask`; unknown types contribute nothing). -/
inductive MsgPart where
  | text (text : String) : MsgPart
  | reasoning (text : String) : MsgPart
  | tool (state : Option ToolPartState) : MsgPart
  | compaction (summary : Option String) : MsgPart
  | subtask (summary : Option String) (result : Option String) : MsgPart
  | otherPart : MsgPart
deriving DecidableEq, Repr

/-- Message with parts (`WithParts` from the host SDK). -/
structure WithParts where
  info : MsgInfo
  parts : List MsgPart
deriving DecidableEq, Repr

/-- Contribution of one part to the flat matching corpus, each piece
prefixed by a space exactly as the source's `content += " " + x` does.  A
tool part contributes its completed output (or error text), then its input
(the string itself when the input is a string and truthy, else its JSON
rendering). -/
def partContribution : MsgPart → String
  | MsgPart.text t => " " ++ t
  | MsgPart.reasoning t => " " ++ t
  | MsgPart.tool none => ""
  | MsgPart.tool (some st) =>
    let outPiece :=
      if st.status == "completed" && st.output.isSome then " " ++ st.output.getD ""
      else if st.status == "error" && st.error.isSome then " " ++ st.error.getD ""
      else ""
    let inPiece := match st.input with
      | some (ToolInputD.strI s) => if s == "" then "" else " " ++ s
      | some (ToolInputD.jsonI j) => " " ++ j
      | none => ""
    outPiece ++ inPiece
  | MsgPart.compaction (some s) => " " ++ s
  | MsgPart.compaction none => ""
  | MsgPart.subtask s r =>
    (match s with | some t => " " ++ t | none => "") ++
      (match r with | some t => " " ++ t | none => "")
  | MsgPart.otherPart => ""

/-- Embedding of `extractMessageContent` from deduplication.ts. -/
def extractMessageContent (msg : WithParts) : String :=
  String.join (msg.parts.map partContribution)

/-- Prefix test on character lists (needle against the front of the
haystack). -/
def startsWithL : List Char → List Char → Bool
  | _, [] => true
  | [], _ :: _ => false
  | h :: t, h' :: t' => h == h' && startsWithL t t'

/-- Substring test on character lists, JS `String.includes`. -/
def includesL : List Char → List Char → Bool
  | [], needle => needle.isEmpty
  | h :: t, needle => startsWithL (h :: t) needle || includesL t needle

/-- JS `hay.includes(needle)`. -/
def jsIncludes (hay needle : String) : Bool :=
  includesL hay.data needle.data

/-- Match kind recorded in a `MatchResult`. -/
inductive MatchType where
  | exact : MatchType
  | fuzzy : MatchType
deriving DecidableEq, Repr

/-- Embedding of `MatchResult` from deduplication.ts. -/
structure MatchResult where
  messageId : String
  messageIndex : Nat
  score : Nat
  matchType : MatchType
deriving DecidableEq, Repr

/-- Loop of `findExactMatches`, carrying the running index. -/
def femGo (searchString : String) : List WithParts → Nat → List MatchResult
  | [], _ => []
  | msg :: rest, i =>
    if jsIncludes (extractMessageContent msg) searchString then
      { messageId := msg.info.id, messageIndex := i, score := 100, matchType := MatchType.exact } ::
        femGo searchString rest (i + 1)
    else
      femGo searchString rest (i + 1)

/-- Embedding of `findExactMatches` from deduplication.ts. -/
def findExactMatches (messages : List WithParts) (searchString : String) : List MatchResult :=
  femGo searchString messages 0

/-- Loop of `findFuzzyMatches`, carrying the running index; `pr` is the
partial-ratio scoring primitive. -/
def ffmGo (pr : String → String → Nat) (searchString : String) (minScore : Nat) :
    List WithParts → Nat → List MatchResult
  | [], _ => []
  | msg :: rest, i =>
    let score := pr searchString (extractMessageContent msg)
    if minScore ≤ score then
      { messageId := msg.info.id, messageIndex := i, score := score, matchType := MatchType.fuzzy } ::
        ffmGo pr searchString minScore rest (i + 1)
    else
      ffmGo pr searchString minScore rest (i + 1)

/-- Embedding of `findFuzzyMatches` from deduplication.ts, parameterized by the scoring
primitive. -/
def findFuzzyMatches (pr : String → String → Nat) (messages : List WithParts)
    (searchString : String) (minScore : Nat) : List MatchResult :=
  ffmGo pr searchString minScore messages 0

/-- Insertion of a match into a descending-by-score list: the new element
passes strictly greater scores and stops before the first score less than
or equal to its own.  In the foldr insertion sort below the inserted
element originally precedes everything already in the list, so stopping at
ties keeps the original order among equal scores, matching JS
`Array.sort` (a stable sort) under the comparator `b.score - a.score`. -/
def insertDesc (x : MatchResult) : List MatchResult → List MatchResult
  | [] => [x]
  | y :: ys => if x.score < y.score then y :: insertDesc x ys else x :: y :: ys

/-- Stable descending sort by score. -/
def sortByScoreDesc (l : List MatchResult) : List MatchResult :=
  l.foldr insertDesc []

/-- Embedding of `FuzzyConfig` from deduplication.ts. -/
structure FuzzyConfig where
  minScore : Nat
  minGap : Nat
deriving DecidableEq, Repr

/-- Embedding of `DEFAULT_FUZZY_CONFIG` from deduplication.ts. -/
def DEFAULT_FUZZY_CONFIG : FuzzyConfig :=
  { minScore := 95, minGap := 15 }

/-- Error taxonomy of `findStringInMessages` (the source throws `Error`s
whose messages distinguish the ambiguous-match and not-found cases). -/
inductive FindError where
  | ambiguousMatch : FindError
  | notFound : FindError
deriving DecidableEq, Repr

/-- Successful resolver result. -/
structure MatchLoc where
  messageId : String
  messageIndex : Nat
deriving DecidableEq, Repr

/-- Searchable pool of the resolver: all messages but the last when more
than one message exists. -/
def searchableMessages (messages : List WithParts) : List WithParts :=
  if 1 < messages.length then messages.dropLast else messages

/-- Embedding of `findStringInMessages` from deduplication.ts, parameterized by the
partial-ratio primitive `pr`: exact substring search over the searchable
pool first (a unique hit is returned, several hits are ambiguous), then
fuzzy scoring at or above `minScore`; with no fuzzy match the last message
is checked as a last resort; a fuzzy winner must lead the runner-up by at
least `minGap`. -/
def findStringInMessages (pr : String → String → Nat) (messages : List WithParts)
    (searchString : String) (fuzzyConfig : FuzzyConfig) : Except FindError MatchLoc :=
  let searchable := searchableMessages messages
  let exactMatches := findExactMatches searchable searchString
  match exactMatches with
  | [m] => Except.ok { messageId := m.messageId, messageIndex := m.messageIndex }
  | _ :: _ :: _ => Except.error FindError.ambiguousMatch
  | [] =>
    let fuzzyMatches := findFuzzyMatches pr searchable searchString fuzzyConfig.minScore
    match fuzzyMatches with
    | [] =>
      match messages.getLast? with
      | some lastMessage =>
        if jsIncludes (extractMessageContent lastMessage) searchString then
          Except.ok { messageId := lastMessage.info.id, messageIndex := messages.length - 1 }
        else
          Except.error FindError.notFound
      | none => Except.error FindError.notFound
    | _ :: _ =>
      match sortByScoreDesc fuzzyMatches with
      | [] => Except.error FindError.notFound
      | best :: rest =>
        match rest with
        | secondBest :: _ =>
          if best.score - secondBest.score < fuzzyConfig.minGap then
            Except.error FindError.ambiguousMatch
          else
            Except.ok { messageId := best.messageId, messageIndex := best.messageIndex }
        | [] => Except.ok { messageId := best.messageId, messageIndex := best.messageIndex }

/-- Row update of the longest-common-subsequence dynamic program:
`prevTail` is the previous row from column `j+1` on, `diag` is the previous
row at column `j`, `left` the new row at column `j`. -/
def lcsGo (ca : Char) : List Char → List Nat → Nat → Nat → List Nat
  | [], _, _, _ => []
  | c :: bs, prevTail, diag, left =>
    let prevRight := prevTail.headD 0
    let v := if ca == c then diag + 1 else max left prevRight
    v :: lcsGo ca bs prevTail.tail prevRight v

/-- Next row of the LCS dynamic program. -/
def lcsRow (ca : Char) (b : List Char) (prev : List Nat) : List Nat :=
  0 :: lcsGo ca b prev.tail (prev.headD 0) 0

/-- Longest common subsequence length of two character lists. -/
def lcs (a b : List Char) : Nat :=
  (a.foldl (fun row ca => lcsRow ca b row) (List.replicate (b.length + 1) 0)).getLastD 0

/-- Modelled from the spec: SequenceMatcher-style similarity of two
character lists, `floor(100 * 2 * matches / (len1 + len2))` with matches
measured by the longest common subsequence (equivalently, Levenshtein
distance with substitution cost 2); 100 for two empty lists. -/
def fuzzScore (a b : List Char) : Nat :=
  if a.length + b.length = 0 then 100
  else (100 * (2 * lcs a b)) / (a.length + b.length)

/-- Contiguous windows of length `n` of a character list, left to right. -/
def windowsList : List Char → Nat → List (List Char)
  | [], n => if n = 0 then [[]] else []
  | l@(_ :: t), n => if l.length < n then [] else l.take n :: windowsList t n

/-- Modelled from the spec: the fuzzball `partial_ratio` primitive is
external library code absent from the repository; per the spec it is a
best-aligned-substring similarity on a 0..100 scale where containment
scores 100 and the score decreases with edit distance.  This model slides
the shorter string over every window of the longer one of the same length
and takes the best `fuzzScore`. -/
def bestWindowScore (s c : String) : Nat :=
  let a := s.data
  let b := c.data
  let shorter := if a.length ≤ b.length then a else b
  let longer := if a.length ≤ b.length then b else a
  ((windowsList longer shorter.length).map (fun w => fuzzScore shorter w)).foldl max 0

/-- Chat-format tool-result message used by the C8 witness. -/
def toolResultMsg (id : String) : ChatMsg :=
  { role := some "tool", tool_call_id := some id }

/-- Two requests observing three and then two fresh tool results. -/
def dedupScenarioCalls : List (List ChatMsg) :=
  [ [toolResultMsg "a", toolResultMsg "b", toolResultMsg "c"]
  , [toolResultMsg "d", toolResultMsg "e"] ]

/-- Search string of the C5 counterexample: twenty `a`s. -/
def c5SearchString : String := String.mk (List.replicate 20 'a')

/-- Near-duplicate text of the C5 counterexample: nineteen `a`s and a `b`
(one substitution away from the search string, so the spec-modelled
partial-ratio score is 95, exactly the default fuzzy threshold). -/
def c5NearText : String := String.mk (List.replicate 19 'a' ++ ['b'])

/-- Messages of the C5 counterexample: a near-duplicate first message and a
last message that contains the search string exactly. -/
def c5Messages : List WithParts :=
  [ { info := { id := "m1" }, parts := [MsgPart.text c5NearText] }
  , { info := { id := "m2" }, parts := [MsgPart.text c5SearchString] } ]

/-- Messages of the C5 witness: one searchable message containing the
search string and a dissimilar last message. -/
def c5WitnessMessages : List WithParts :=
  [ { info := { id := "a" }, parts := [MsgPart.text "x"] }
  , { info := { id := "b" }, parts := [MsgPart.text "zzz"] } ]

end Dedup

namespace RespFormat

/-! Embedding of the OpenAI Responses API format adapter
(`openaiResponsesFormat` in the source): items of the `body.input` array. -/

/-- Item of the Responses-API `input` array as read by the adapter: only
the `type`, `call_id`, `name` and `output` fields are consulted, all other
fields ride along untouched in the source's spread copy. -/
structure RespItem where
  type : String := ""
  call_id : Option String := none
  name : Option String := none
  output : Option String := none
deriving DecidableEq, Repr

/-- Loop of `replaceToolOutput`: replace the `output` of every
`function_call_output` item whose `call_id` lower-cases to the requested
id; the flag records whether any replacement occurred. -/
def rtoGo (toolIdLower prunedMessage : String) : List RespItem → List RespItem × Bool
  | [] => ([], false)
  | item :: rest =>
    let r := rtoGo toolIdLower prunedMessage rest
    if item.type == "function_call_output" && (item.call_id.map jsToLower) == some toolIdLower then
      ({ item with output := some prunedMessage } :: r.1, true)
    else
      (item :: r.1, r.2)

/-- Embedding of `replaceToolOutput` of `openaiResponsesFormat`. -/
def replaceToolOutput (data : List RespItem) (toolId : String)
    (prunedMessage : String) : List RespItem × Bool :=
  rtoGo (jsToLower toolId) prunedMessage data

/-- Embedding of `hasToolOutputs` of `openaiResponsesFormat`. -/
def hasToolOutputs (data : List RespItem) : Bool :=
  data.any (fun item => item.type == "function_call_output")

end RespFormat

namespace DCP

/-! Helper lemmas about the JS `Map` model. -/

theorem jsMapHas_eq_isSome {α : Type} (m : List (String × α)) (k : String) :
    jsMapHas m k = (jsMapGet m k).isSome := by
  induction m with
  | nil => rfl
  | cons p m ih => by_cases h : p.1 == k <;> simp [jsMapHas, jsMapGet, h, ih]

theorem jsMapGet_set {α : Type} (m : List (String × α)) (k k' : String) (v : α) :
    jsMapGet (jsMapSet m k v) k' = if k' = k then some v else jsMapGet m k' := by
  induction m with
  | nil =>
    by_cases hkk : k' = k
    · simp [jsMapSet, jsMapGet, hkk]
    · simp [jsMapSet, jsMapGet, hkk, Ne.symm hkk]
  | cons p m ih =>
    by_cases h : p.1 == k
    · have hpk : p.1 = k := by simpa using h
      by_cases hkk : k' = k
      · simp [jsMapSet, jsMapGet, h, hkk]
      · have h1 : ¬ k = k' := Ne.symm hkk
        have h2 : ¬ p.1 = k' := by rw [hpk]; exact h1
        simp [jsMapSet, jsMapGet, h, hkk, h1, h2]
    · by_cases h2 : p.1 == k'
      · have hpk' : p.1 = k' := by simpa using h2
        have hkk : ¬ k' = k := fun he => h (by simp [hpk', he])
        simp [jsMapSet, jsMapGet, h, h2, hkk]
      · simp [jsMapSet, jsMapGet, h, h2, ih]

theorem jsMapHas_set {α : Type} (m : List (String × α)) (k k' : String) (v : α) :
    jsMapHas (jsMapSet m k v) k' = (decide (k' = k) || jsMapHas m k') := by
  rw [jsMapHas_eq_isSome, jsMapGet_set, jsMapHas_eq_isSome]
  by_cases hkk : k' = k <;> simp [hkk]

/-! Helper lemmas about configuration normalization. -/

theorem asStringArray_idem (v : Option (List String)) :
    asStringArray (some (asStringArray v)) = asStringArray v := by
  simp [asStringArray, List.filter_filter]

theorem normalizeConfig_toRaw (raw : RawConfig) :
    normalizeConfig ((normalizeConfig raw).toRaw) = normalizeConfig raw := by
  simp [normalizeConfig, ExtensionConfig.toRaw, asStringArray_idem]

theorem collectSweepCandidates_toRaw (msgs : List DcpMessage) (s : DcpState) (cfg : RawConfig) :
    collectSweepCandidates msgs s (normalizeConfig cfg).toRaw = collectSweepCandidates msgs s cfg := by
  simp [collectSweepCandidates, normalizeConfig_toRaw]

/-! Helper lemmas about `buildMessagesByID`. -/

theorem foldl_set_get (msgs : List DcpMessage) : ∀ (acc : List (String × DcpMessage)) (k : String),
    jsMapGet (msgs.foldl (fun a m => jsMapSet a m.id m) acc) k =
      (msgs.reverse.find? (fun m => m.id == k)).or (jsMapGet acc k) := by
  induction msgs with
  | nil => intro acc k; simp
  | cons m ms ih =>
    intro acc k
    simp only [List.foldl_cons, List.reverse_cons]
    rw [ih, List.find?_append]
    cases hf : ms.reverse.find? (fun m => m.id == k) with
    | some x => simp [Option.or]
    | none =>
      rw [jsMapGet_set]
      by_cases hk : k = m.id
      · simp [hk, List.find?_cons, Option.or]
      · have hne : (m.id == k) = false := by
          simp only [beq_eq_false_iff_ne, ne_eq]
          exact fun h => hk h.symm
        simp [hk, List.find?_cons, hne, Option.or]

theorem buildMessagesByID_get (msgs : List DcpMessage) (k : String) :
    jsMapGet (buildMessagesByID msgs) k = msgs.reverse.find? (fun m => m.id == k) := by
  rw [buildMessagesByID, foldl_set_get]
  cases msgs.reverse.find? (fun m => m.id == k) <;> simp [jsMapGet, Option.or]

theorem buildMessagesByID_get_mem {msgs : List DcpMessage} {k : String} {m : DcpMessage}
    (h : jsMapGet (buildMessagesByID msgs) k = some m) : m ∈ msgs ∧ m.id = k := by
  rw [buildMessagesByID_get] at h
  refine ⟨List.mem_reverse.mp (List.mem_of_find?_eq_some h), ?_⟩
  have := List.find?_some h
  simpa using this

theorem buildMessagesByID_isSome {msgs : List DcpMessage} {k : String}
    (h : ∃ m ∈ msgs, m.id = k) : (jsMapGet (buildMessagesByID msgs) k).isSome := by
  rw [buildMessagesByID_get]
  rw [List.find?_isSome]
  obtain ⟨m, hm, hk⟩ := h
  exact ⟨m, List.mem_reverse.mpr hm, by simp [hk]⟩

/-! Helper lemmas about the `pruneByIDs` loop. -/

theorem pruneLoop_skip_single (byID : List (String × DcpMessage)) (config : ExtensionConfig)
    (reason : String) (dID : Option String) (now : Nat) (id : String) (s : DcpState)
    (p pr mi : List String) (h : jsMapHas s.prunedByID id = true) :
    (pruneLoop byID config reason dID now [id] s p pr mi).1.prunedIDs = p ∧
    (pruneLoop byID config reason dID now [id] s p pr mi).2 = s := by
  cases hb : jsMapGet byID id with
  | none => simp [pruneLoop, hb]
  | some m => simp [pruneLoop, hb, h]

theorem pruneLoop_has_mono (byID : List (String × DcpMessage)) (config : ExtensionConfig)
    (reason : String) (dID : Option String) (now : Nat) (id : String) :
    ∀ (ids : List String) (s : DcpState) (p pr mi : List String),
      jsMapHas s.prunedByID id = true →
      jsMapHas (pruneLoop byID config reason dID now ids s p pr mi).2.prunedByID id = true := by
  intro ids
  induction ids with
  | nil => intro s p pr mi h; simpa [pruneLoop] using h
  | cons c rest ih =>
    intro s p pr mi h
    cases hb : jsMapGet byID c with
    | none => simpa [pruneLoop, hb] using ih s p pr (mi ++ [c]) h
    | some m =>
      by_cases hhas : jsMapHas s.prunedByID c
      · simpa [pruneLoop, hb, hhas] using ih s p pr mi h
      · by_cases hpro : isProtectedMessage m config
        · simpa [pruneLoop, hb, hhas, hpro] using ih s p (pr ++ [c]) mi h
        · have h' : jsMapHas (jsMapSet s.prunedByID c
              { reason := reason, toolName := m.toolName, chars := estimateChars m.content
                atTime := now, distillationID := dID }) id = true := by
            rw [jsMapHas_set]; simp [h]
          simpa [pruneLoop, hb, hhas, hpro] using ih _ (p ++ [c]) pr mi h'

theorem pruneLoop_mem_pruned (byID : List (String × DcpMessage)) (config : ExtensionConfig)
    (reason : String) (dID : Option String) (now : Nat) (id : String) :
    ∀ (ids : List String) (s : DcpState) (p pr mi : List String),
      id ∈ (pruneLoop byID config reason dID now ids s p pr mi).1.prunedIDs →
      id ∈ p ∨ jsMapHas (pruneLoop byID config reason dID now ids s p pr mi).2.prunedByID id = true := by
  intro ids
  induction ids with
  | nil => intro s p pr mi h; simp [pruneLoop] at h ⊢; exact Or.inl h
  | cons c rest ih =>
    intro s p pr mi h
    cases hb : jsMapGet byID c with
    | none =>
      simp only [pruneLoop, hb] at h ⊢
      exact ih s p pr (mi ++ [c]) h
    | some m =>
      by_cases hhas : jsMapHas s.prunedByID c
      · simp only [pruneLoop, hb, hhas, if_true] at h ⊢
        exact ih s p pr mi h
      · by_cases hpro : isProtectedMessage m config
        · simp only [pruneLoop, hb, hhas, hpro, if_false, if_true, Bool.false_eq_true] at h ⊢
          exact ih s p (pr ++ [c]) mi h
        · simp only [pruneLoop, hb, hhas, hpro, if_false, Bool.false_eq_true] at h ⊢
          rcases ih _ (p ++ [c]) pr mi h with h' | h'
          · rcases List.mem_append.mp h' with h'' | h''
            · exact Or.inl h''
            · right
              have hc : id = c := by simpa using h''
              subst hc
              apply pruneLoop_has_mono
              rw [jsMapHas_set]; simp
          · exact Or.inr h'

theorem pruneLoop_prunes_all (byID : List (String × DcpMessage)) (config : ExtensionConfig)
    (reason : String) (dID : Option String) (now : Nat) :
    ∀ (ids : List String) (s : DcpState) (p pr mi : List String),
      ids.Nodup →
      (∀ c ∈ ids, jsMapHas s.prunedByID c = false) →
      (∀ c ∈ ids, ∃ m, jsMapGet byID c = some m ∧ isProtectedMessage m config = false) →
      (pruneLoop byID config reason dID now ids s p pr mi).1.prunedIDs = p ++ ids := by
  intro ids
  induction ids with
  | nil => intro s p pr mi _ _ _; simp [pruneLoop]
  | cons c rest ih =>
    intro s p pr mi hnd hhas hlook
    obtain ⟨m, hb, hpro⟩ := hlook c (by simp)
    have hhc : jsMapHas s.prunedByID c = false := hhas c (by simp)
    simp only [pruneLoop, hb, hhc, hpro, if_false, Bool.false_eq_true]
    have hrest : ∀ c' ∈ rest, jsMapHas (jsMapSet s.prunedByID c
        { reason := reason, toolName := m.toolName, chars := estimateChars m.content
          atTime := now, distillationID := dID }) c' = false := by
      intro c' hc'
      rw [jsMapHas_set]
      have hne : ¬ c' = c := by
        intro he; subst he
        exact (List.nodup_cons.mp hnd).1 hc'
      simp [hne, hhas c' (List.mem_cons_of_mem _ hc')]
    have := ih
      { s with
        prunedByID := jsMapSet s.prunedByID c
          { reason := reason, toolName := m.toolName, chars := estimateChars m.content
            atTime := now, distillationID := dID }
        counters := { s.counters with
          prunedMessages := s.counters.prunedMessages + 1
          prunedChars := s.counters.prunedChars + estimateChars m.content } }
      (p ++ [c]) pr mi (List.nodup_cons.mp hnd).2 hrest
      (fun c' hc' => hlook c' (List.mem_cons_of_mem _ hc'))
    rw [this, List.append_assoc]
    rfl

theorem pruneLoop_protected_invariant (byID : List (String × DcpMessage))
    (config : ExtensionConfig) (reason : String) (dID : Option String) (now : Nat)
    (id : String)
    (hprot : ∀ m, jsMapGet byID id = some m → isProtectedMessage m config = true) :
    ∀ (ids : List String) (s : DcpState) (p pr mi : List String),
      (jsMapGet (pruneLoop byID config reason dID now ids s p pr mi).2.prunedByID id =
        jsMapGet s.prunedByID id)
      ∧ (id ∉ p → id ∉ (pruneLoop byID config reason dID now ids s p pr mi).1.prunedIDs)
      ∧ (∀ x ∈ pr, x ∈ (pruneLoop byID config reason dID now ids s p pr mi).1.protectedIDs)
      ∧ ((id ∈ ids ∧ (jsMapGet byID id).isSome ∧ jsMapHas s.prunedByID id = false) →
          id ∈ (pruneLoop byID config reason dID now ids s p pr mi).1.protectedIDs) := by
  intro ids
  induction ids with
  | nil =>
    intro s p pr mi
    refine ⟨rfl, ?_, ?_, ?_⟩
    · intro hp; simpa [pruneLoop] using hp
    · intro x hx; simpa [pruneLoop] using hx
    · intro h; simp at h
  | cons c rest ih =>
    intro s p pr mi
    cases hb : jsMapGet byID c with
    | none =>
      obtain ⟨ih1, ih2, ih3, ih4⟩ := ih s p pr (mi ++ [c])
      refine ⟨?_, ?_, ?_, ?_⟩
      · simpa [pruneLoop, hb] using ih1
      · intro hp; simpa [pruneLoop, hb] using ih2 hp
      · intro x hx; simpa [pruneLoop, hb] using ih3 x hx
      · rintro ⟨hin, hsome, hhas⟩
        rcases List.mem_cons.mp hin with he | hin'
        · subst he; rw [hb] at hsome; simp at hsome
        · simpa [pruneLoop, hb] using ih4 ⟨hin', hsome, hhas⟩
    | some m =>
      by_cases hhasc : jsMapHas s.prunedByID c
      · obtain ⟨ih1, ih2, ih3, ih4⟩ := ih s p pr mi
        refine ⟨?_, ?_, ?_, ?_⟩
        · simpa [pruneLoop, hb, hhasc] using ih1
        · intro hp; simpa [pruneLoop, hb, hhasc] using ih2 hp
        · intro x hx; simpa [pruneLoop, hb, hhasc] using ih3 x hx
        · rintro ⟨hin, hsome, hhas⟩
          rcases List.mem_cons.mp hin with he | hin'
          · subst he; rw [hhasc] at hhas; simp at hhas
          · simpa [pruneLoop, hb, hhasc] using ih4 ⟨hin', hsome, hhas⟩
      · by_cases hpro : isProtectedMessage m config
        · obtain ⟨ih1, ih2, ih3, ih4⟩ := ih s p (pr ++ [c]) mi
          refine ⟨?_, ?_, ?_, ?_⟩
          · simpa [pruneLoop, hb, hhasc, hpro] using ih1
          · intro hp; simpa [pruneLoop, hb, hhasc, hpro] using ih2 hp
          · intro x hx
            simpa [pruneLoop, hb, hhasc, hpro] using ih3 x (List.mem_append_left _ hx)
          · rintro ⟨hin, hsome, hhas⟩
            rcases List.mem_cons.mp hin with he | hin'
            · subst he
              simpa [pruneLoop, hb, hhasc, hpro] using ih3 id (by simp)
            · simpa [pruneLoop, hb, hhasc, hpro] using ih4 ⟨hin', hsome, hhas⟩
        · have hne : ¬ id = c := by
            intro he; subst he
            rw [hprot m hb] at hpro; simp at hpro
          obtain ⟨ih1, ih2, ih3, ih4⟩ := ih
            { s with
              prunedByID := jsMapSet s.prunedByID c
                { reason := reason, toolName := m.toolName, chars := estimateChars m.content
                  atTime := now, distillationID := dID }
              counters := { s.counters with
                prunedMessages := s.counters.prunedMessages + 1
                prunedChars := s.counters.prunedChars + estimateChars m.content } }
            (p ++ [c]) pr mi
          refine ⟨?_, ?_, ?_, ?_⟩
          · have : jsMapGet (jsMapSet s.prunedByID c
                { reason := reason, toolName := m.toolName, chars := estimateChars m.content
                  atTime := now, distillationID := dID }) id = jsMapGet s.prunedByID id := by
              rw [jsMapGet_set]; simp [hne]
            simpa [pruneLoop, hb, hhasc, hpro, this] using ih1.trans this
          · intro hp
            have hp' : id ∉ p ++ [c] := by
              intro hmem
              rcases List.mem_append.mp hmem with h' | h'
              · exact hp h'
              · exact hne (by simpa using h')
            simpa [pruneLoop, hb, hhasc, hpro] using ih2 hp'
          · intro x hx; simpa [pruneLoop, hb, hhasc, hpro] using ih3 x hx
          · rintro ⟨hin, hsome, hhas⟩
            rcases List.mem_cons.mp hin with he | hin'
            · exact absurd he hne
            · have hhas' : jsMapHas (jsMapSet s.prunedByID c
                  { reason := reason, toolName := m.toolName, chars := estimateChars m.content
                    atTime := now, distillationID := dID }) id = false := by
                rw [jsMapHas_set]; simp [hne, hhas]
              simpa [pruneLoop, hb, hhasc, hpro] using ih4 ⟨hin', hsome, hhas'⟩

/-! Helper lemmas about sweep candidates. -/

theorem mem_collectSweepCandidates {msgs : List DcpMessage} {s : DcpState} {cfg : RawConfig}
    {c : String} (h : c ∈ collectSweepCandidates msgs s cfg) :
    ∃ m ∈ msgs, m.id = c ∧ isToolLikeMessage m = true ∧
      jsMapHas s.prunedByID c = false ∧ isProtectedMessage m (normalizeConfig cfg) = false := by
  simp only [collectSweepCandidates, List.mem_map, List.mem_filter] at h
  obtain ⟨m, ⟨hmem, hpred⟩, hid⟩ := h
  have hmem' : m ∈ msgs := (List.drop_sublist _ _).subset hmem
  rw [Bool.and_eq_true, Bool.and_eq_true] at hpred
  obtain ⟨⟨h1, h2⟩, h3⟩ := hpred
  refine ⟨m, hmem', hid, h1, ?_, ?_⟩
  · rw [← hid]; simpa using h2
  · simpa using h3

theorem collectSweepCandidates_nodup (msgs : List DcpMessage) (s : DcpState) (cfg : RawConfig)
    (h : (msgs.map (fun m => m.id)).Nodup) : (collectSweepCandidates msgs s cfg).Nodup := by
  have hsub : List.Sublist ((msgs.drop ((lastUserIndex msgs) + 1).toNat).filter
      (fun m => isToolLikeMessage m && !(jsMapHas s.prunedByID m.id) &&
        !(isProtectedMessage m (normalizeConfig cfg)))) msgs :=
    (List.filter_sublist _).trans (List.drop_sublist _ _)
  have := h.sublist (hsub.map (fun m => m.id))
  simpa [collectSweepCandidates] using this

theorem lastSlice_sublist {α : Type} (l : List α) (n : Nat) : List.Sublist (lastSlice l n) l :=
  List.drop_sublist _ _

theorem pruneByIDs_candidates_exact (msgs : List DcpMessage) (s : DcpState) (cfg : RawConfig)
    (ids : List String) (reason : String) (dID : Option String) (now : Nat)
    (hN : (msgs.map (fun m => m.id)).Nodup) (hids : ids.Nodup)
    (hsub : ∀ c ∈ ids, c ∈ collectSweepCandidates msgs s cfg) :
    (pruneByIDs msgs s cfg ids reason dID now).1.prunedIDs = ids := by
  unfold pruneByIDs
  have hhas : ∀ c ∈ ids, jsMapHas s.prunedByID c = false := by
    intro c hcm
    obtain ⟨m, hmem, hid, htool, hh, hpro⟩ := mem_collectSweepCandidates (hsub c hcm)
    exact hh
  have hlook : ∀ c ∈ ids, ∃ m, jsMapGet (buildMessagesByID msgs) c = some m ∧
      isProtectedMessage m (normalizeConfig cfg) = false := by
    intro c hcm
    obtain ⟨m, hmem, hid, htool, hh, hpro⟩ := mem_collectSweepCandidates (hsub c hcm)
    have hsome := buildMessagesByID_isSome ⟨m, hmem, hid⟩
    obtain ⟨m', hm'⟩ := Option.isSome_iff_exists.mp hsome
    obtain ⟨hmem', hid'⟩ := buildMessagesByID_get_mem hm'
    have hme : m' = m := List.inj_on_of_nodup_map hN hmem' hmem (by rw [hid', hid])
    exact ⟨m', hm', by rw [hme]; exact hpro⟩
  simpa using pruneLoop_prunes_all (buildMessagesByID msgs) (normalizeConfig cfg)
    reason dID now ids s [] [] [] hids hhas hlook

theorem sweep_prunedIDs_eq (msgs : List DcpMessage) (s : DcpState) (cfg : RawConfig)
    (limit : Option JsNum) (now : Nat) (hN : (msgs.map (fun m => m.id)).Nodup) :
    (sweep msgs s cfg limit now).1.prunedIDs =
      (match limit with
       | some (JsNum.num n) =>
         if 0 < n then lastSlice (collectSweepCandidates msgs s cfg) n.toNat
         else collectSweepCandidates msgs s cfg
       | _ => collectSweepCandidates msgs s cfg) := by
  have hnodup := collectSweepCandidates_nodup msgs s cfg hN
  have main : ∀ (capped : List String), capped.Nodup →
      (∀ c ∈ capped, c ∈ collectSweepCandidates msgs s cfg) →
      (pruneByIDs msgs s (normalizeConfig cfg).toRaw capped "sweep" none now).1.prunedIDs =
        capped := by
    intro capped hnd hsubc
    apply pruneByIDs_candidates_exact msgs s _ capped _ _ _ hN hnd
    intro c hcm
    rw [collectSweepCandidates_toRaw]
    exact hsubc c hcm
  cases limit with
  | none =>
    simpa [sweep, collectSweepCandidates_toRaw] using
      main (collectSweepCandidates msgs s cfg) hnodup (fun c hc => hc)
  | some l =>
    cases l with
    | nan =>
      simpa [sweep, collectSweepCandidates_toRaw] using
        main (collectSweepCandidates msgs s cfg) hnodup (fun c hc => hc)
    | posInf =>
      simpa [sweep, collectSweepCandidates_toRaw] using
        main (collectSweepCandidates msgs s cfg) hnodup (fun c hc => hc)
    | negInf =>
      simpa [sweep, collectSweepCandidates_toRaw] using
        main (collectSweepCandidates msgs s cfg) hnodup (fun c hc => hc)
    | num n =>
      by_cases hn : 0 < n
      · have hcap := main (lastSlice (collectSweepCandidates msgs s cfg) n.toNat)
          (hnodup.sublist (lastSlice_sublist _ _))
          (fun c hc => (lastSlice_sublist _ _).subset hc)
        simpa [sweep, collectSweepCandidates_toRaw, hn] using hcap
      · simpa [sweep, collectSweepCandidates_toRaw, hn] using
          main (collectSweepCandidates msgs s cfg) hnodup (fun c hc => hc)

theorem pruneByIDs_not_pruned_of_protected (msgs : List DcpMessage) (s : DcpState)
    (cfg : RawConfig) (ids : List String) (reason : String) (dID : Option String)
    (now : Nat) (id : String)
    (hprot : ∀ m ∈ msgs, m.id = id → isProtectedMessage m (normalizeConfig cfg) = true) :
    id ∉ (pruneByIDs msgs s cfg ids reason dID now).1.prunedIDs := by
  have hpr : ∀ m, jsMapGet (buildMessagesByID msgs) id = some m →
      isProtectedMessage m (normalizeConfig cfg) = true := by
    intro m hm
    obtain ⟨hmem, hid⟩ := buildMessagesByID_get_mem hm
    exact hprot m hmem hid
  obtain ⟨_, i2, _, _⟩ := pruneLoop_protected_invariant (buildMessagesByID msgs)
    (normalizeConfig cfg) reason dID now id hpr ids s [] [] []
  simpa [pruneByIDs] using i2 (by simp)

theorem findIdx?_append_of_forall_false {α : Type} (p : α → Bool) (l2 : List α) :
    ∀ (l1 : List α), (∀ x ∈ l1, p x = false) → ∀ (i : Nat),
      List.findIdx? p (l1 ++ l2) i = List.findIdx? p l2 (i + l1.length) := by
  intro l1
  induction l1 with
  | nil => intro _ i; simp
  | cons x l1 ih =>
    intro h i
    have hx : p x = false := h x (by simp)
    rw [List.cons_append]
    simp only [List.findIdx?, hx, Bool.false_eq_true, if_false]
    rw [ih (fun y hy => h y (List.mem_cons_of_mem _ hy)) (i + 1)]
    have he : i + 1 + l1.length = i + (x :: l1).length := by simp; omega
    rw [he]

/-- C1: for every message list, state, config, reason and message ID,
calling `pruneByIDs` a second time with an ID that was pruned by a first
call is a no-op: the second call returns normally (the embedding is total
and reports instead of throwing), its `prunedIDs` does not contain that ID,
the counters `prunedMessages` and `prunedChars` keep their values from
after the first call, and in fact the whole state is unchanged — no
double-counting. -/
theorem C1_prune_idempotent (msgs : List DcpMessage) (s : DcpState) (cfg : RawConfig)
    (ids : List String) (reason1 reason2 : String) (d1 d2 : Option String)
    (now1 now2 : Nat) (id : String)
    (h : id ∈ (pruneByIDs msgs s cfg ids reason1 d1 now1).1.prunedIDs) :
    id ∉ (pruneByIDs msgs (pruneByIDs msgs s cfg ids reason1 d1 now1).2 cfg
        [id] reason2 d2 now2).1.prunedIDs
    ∧ (pruneByIDs msgs (pruneByIDs msgs s cfg ids reason1 d1 now1).2 cfg
        [id] reason2 d2 now2).2.counters.prunedMessages =
      (pruneByIDs msgs s cfg ids reason1 d1 now1).2.counters.prunedMessages
    ∧ (pruneByIDs msgs (pruneByIDs msgs s cfg ids reason1 d1 now1).2 cfg
        [id] reason2 d2 now2).2.counters.prunedChars =
      (pruneByIDs msgs s cfg ids reason1 d1 now1).2.counters.prunedChars
    ∧ (pruneByIDs msgs (pruneByIDs msgs s cfg ids reason1 d1 now1).2 cfg
        [id] reason2 d2 now2).2 =
      (pruneByIDs msgs s cfg ids reason1 d1 now1).2 := by
  have h1 : jsMapHas (pruneByIDs msgs s cfg ids reason1 d1 now1).2.prunedByID id = true := by
    have hm := pruneLoop_mem_pruned (buildMessagesByID msgs) (normalizeConfig cfg)
      reason1 d1 now1 id ids s [] [] [] (by simpa [pruneByIDs] using h)
    rcases hm with h' | h'
    · simp at h'
    · simpa [pruneByIDs] using h'
  have h2 := pruneLoop_skip_single (buildMessagesByID msgs) (normalizeConfig cfg)
    reason2 d2 now2 id ((pruneByIDs msgs s cfg ids reason1 d1 now1).2) [] [] [] h1
  have e1 : (pruneByIDs msgs (pruneByIDs msgs s cfg ids reason1 d1 now1).2 cfg
      [id] reason2 d2 now2).1.prunedIDs = [] := by simpa [pruneByIDs] using h2.1
  have e2 : (pruneByIDs msgs (pruneByIDs msgs s cfg ids reason1 d1 now1).2 cfg
      [id] reason2 d2 now2).2 = (pruneByIDs msgs s cfg ids reason1 d1 now1).2 := by
    simpa [pruneByIDs] using h2.2
  exact ⟨by simp [e1], by rw [e2], by rw [e2], e2⟩

/-- C1 witness: a concrete instance of the idempotence theorem — pruning
`t1` and then pruning `t1` again. -/
theorem C1_prune_idempotent_witness :
    "t1" ∉ (pruneByIDs sweepScenarioMessages
        (pruneByIDs sweepScenarioMessages createState emptyRawConfig ["t1"] "manual" none 0).2
        emptyRawConfig ["t1"] "manual" none 1).1.prunedIDs
    ∧ (pruneByIDs sweepScenarioMessages
        (pruneByIDs sweepScenarioMessages createState emptyRawConfig ["t1"] "manual" none 0).2
        emptyRawConfig ["t1"] "manual" none 1).2.counters.prunedMessages =
      (pruneByIDs sweepScenarioMessages createState emptyRawConfig ["t1"] "manual" none 0).2.counters.prunedMessages := by
  have hmem : "t1" ∈ (pruneByIDs sweepScenarioMessages createState emptyRawConfig
      ["t1"] "manual" none 0).1.prunedIDs := by decide
  have := C1_prune_idempotent sweepScenarioMessages createState emptyRawConfig
    ["t1"] "manual" "manual" none none 0 1 "t1" hmem
  exact ⟨this.1, this.2.1⟩

/-- C10: whenever the `limit` argument of `sweep` is not a finite number
strictly greater than zero (absent, `NaN`, an infinity, zero or negative),
`sweep` behaves as an unlimited sweep — every collected candidate is pruned
and the result's `usedLimit` is `null` (message ids are unique per the
documented data model). -/
theorem C10_sweep_unlimited (msgs : List DcpMessage) (s : DcpState) (cfg : RawConfig)
    (limit : Option JsNum) (now : Nat)
    (hN : (msgs.map (fun m => m.id)).Nodup)
    (hL : limitActive limit = false) :
    (sweep msgs s cfg limit now).1.prunedIDs = collectSweepCandidates msgs s cfg
    ∧ (sweep msgs s cfg limit now).1.usedLimit = none := by
  have hp := sweep_prunedIDs_eq msgs s cfg limit now hN
  cases limit with
  | none => exact ⟨by simpa using hp, by simp [sweep]⟩
  | some l =>
    cases l with
    | nan => exact ⟨by simpa using hp, by simp [sweep]⟩
    | posInf => exact ⟨by simpa using hp, by simp [sweep]⟩
    | negInf => exact ⟨by simpa using hp, by simp [sweep]⟩
    | num n =>
      have hn : ¬ 0 < n := by simpa [limitActive] using hL
      exact ⟨by simpa [hn] using hp, by simp [sweep, hn]⟩

/-- C10 witness: a concrete unlimited sweep with `limit = 0`. -/
theorem C10_sweep_unlimited_witness :
    (sweep sweepScenarioMessages createState emptyRawConfig (some (JsNum.num 0)) 0).1.prunedIDs =
      collectSweepCandidates sweepScenarioMessages createState emptyRawConfig
    ∧ (sweep sweepScenarioMessages createState emptyRawConfig (some (JsNum.num 0)) 0).1.usedLimit =
      none :=
  C10_sweep_unlimited sweepScenarioMessages createState emptyRawConfig
    (some (JsNum.num 0)) 0 (by decide) (by decide)

/-- C2: sweep candidates are exactly the tool-like, un-pruned, unprotected
messages strictly after the last user-role message, in document order; with
a positive finite numeric limit only the last `limit` candidates are pruned
(ids unique per the data model); and on the concrete scenario
`[u1, t1, t2, u2, t3, t4, t5]`, `sweep(limit=2)` on fresh state prunes
exactly `[t4, t5]` and a subsequent unlimited sweep prunes exactly `[t3]`. -/
theorem C2_sweep_boundary :
    (∀ (pre suf : List DcpMessage) (u : DcpMessage) (s : DcpState) (cfg : RawConfig),
       u.role = some "user" → (∀ m ∈ suf, m.role ≠ some "user") →
       collectSweepCandidates (pre ++ u :: suf) s cfg =
         (suf.filter (fun m => isToolLikeMessage m && !(jsMapHas s.prunedByID m.id) &&
           !(isProtectedMessage m (normalizeConfig cfg)))).map (fun m => m.id))
    ∧ (∀ (msgs : List DcpMessage) (s : DcpState) (cfg : RawConfig) (n : Int) (now : Nat),
        (msgs.map (fun m => m.id)).Nodup → 0 < n →
        (sweep msgs s cfg (some (JsNum.num n)) now).1.prunedIDs =
          lastSlice (collectSweepCandidates msgs s cfg) n.toNat)
    ∧ (sweep sweepScenarioMessages createState emptyRawConfig (some (JsNum.num 2)) 0).1.prunedIDs
        = ["t4", "t5"]
    ∧ (sweep sweepScenarioMessages
        (sweep sweepScenarioMessages createState emptyRawConfig (some (JsNum.num 2)) 0).2
        emptyRawConfig none 0).1.prunedIDs = ["t3"] := by
  refine ⟨?_, ?_, by decide, by decide⟩
  · intro pre suf u s cfg hu hsuf
    have h1 : ∀ x ∈ suf.reverse, (x.role == some "user") = false := by
      intro x hx
      have := hsuf x (List.mem_reverse.mp hx)
      simpa using this
    have hfind : List.findIdx? (fun m => m.role == some "user") (pre ++ u :: suf).reverse =
        some suf.length := by
      rw [List.reverse_append, List.reverse_cons, List.append_assoc]
      rw [findIdx?_append_of_forall_false _ _ _ h1]
      rw [List.singleton_append]
      simp only [List.findIdx?, hu]
      simp
    have hLU : lastUserIndex (pre ++ u :: suf) = (pre.length : Int) := by
      simp only [lastUserIndex, hfind, List.length_append, List.length_cons]
      omega
    have hdrop : (pre ++ u :: suf).drop ((lastUserIndex (pre ++ u :: suf)) + 1).toNat = suf := by
      rw [hLU]
      have ht : ((pre.length : Int) + 1).toNat = pre.length + 1 := by omega
      rw [ht]
      have he : pre ++ u :: suf = (pre ++ [u]) ++ suf := by
        rw [List.append_assoc, List.singleton_append]
      have hlen : (pre ++ [u]).length = pre.length + 1 := by simp
      rw [he, ← hlen, List.drop_left]
    simp only [collectSweepCandidates]
    rw [hdrop]
  · intro msgs s cfg n now hN hn
    have hp := sweep_prunedIDs_eq msgs s cfg (some (JsNum.num n)) now hN
    simpa [hn] using hp

/-- C2 witness: the boundary characterization applied to the concrete
scenario messages, with `u2` as the last user message. -/
theorem C2_sweep_boundary_witness :
    collectSweepCandidates sweepScenarioMessages createState emptyRawConfig =
      ["t3", "t4", "t5"] := by
  have h := C2_sweep_boundary.1
    (sweepScenarioMessages.take 3)
    (sweepScenarioMessages.drop 4)
    { id := "u2", role := some "user", content := JsContent.strC "second" }
    createState emptyRawConfig rfl (by decide)
  have he : sweepScenarioMessages.take 3 ++
      ({ id := "u2", role := some "user", content := JsContent.strC "second" } : DcpMessage) ::
        sweepScenarioMessages.drop 4 = sweepScenarioMessages := by decide
  rw [he] at h
  rw [h]
  decide

/-- C4 counterexample: `t1` is protected under the current configuration
and explicitly targeted, yet `pruneByIDs` does not report it in
`protectedIDs` — the already-pruned check runs before the protection check,
so an already-pruned protected ID is silently skipped (the claim requires
such IDs to be reported in `protectedIDs`).  Nothing is pruned and the
state is unchanged. -/
theorem C4_counterexample :
    isProtectedMessage c4Message (normalizeConfig emptyRawConfig) = true
    ∧ ("t1" : String) ∈ ["t1"]
    ∧ (pruneByIDs [c4Message] c4State emptyRawConfig ["t1"] "manual" none 0).1.protectedIDs = []
    ∧ (pruneByIDs [c4Message] c4State emptyRawConfig ["t1"] "manual" none 0).1.prunedIDs = []
    ∧ (pruneByIDs [c4Message] c4State emptyRawConfig ["t1"] "manual" none 0).2 = c4State := by
  decide

/-- C4 (amended): a message protected by tool name (built-in or configured,
case-insensitively) or by a file-glob match on its inferred file path is
never pruned, by `pruneByIDs` or by `sweep`, even when explicitly targeted
by ID: no `PrunedRecord` is ever created or changed for it and it never
appears in `prunedIDs`; `pruneByIDs` reports it in `protectedIDs` provided
it is not already pruned (an already-pruned protected ID is silently
skipped and reported nowhere). -/
theorem C4_protection_amended (msgs : List DcpMessage) (s : DcpState) (cfg : RawConfig)
    (ids : List String) (reason : String) (dID : Option String) (now : Nat)
    (limit : Option JsNum) (now2 : Nat) (id : String)
    (hprot : ∀ m ∈ msgs, m.id = id → isProtectedMessage m (normalizeConfig cfg) = true) :
    jsMapGet (pruneByIDs msgs s cfg ids reason dID now).2.prunedByID id =
      jsMapGet s.prunedByID id
    ∧ id ∉ (pruneByIDs msgs s cfg ids reason dID now).1.prunedIDs
    ∧ ((id ∈ ids ∧ (∃ m ∈ msgs, m.id = id) ∧ jsMapHas s.prunedByID id = false) →
        id ∈ (pruneByIDs msgs s cfg ids reason dID now).1.protectedIDs)
    ∧ id ∉ (sweep msgs s cfg limit now2).1.prunedIDs := by
  have hpr : ∀ m, jsMapGet (buildMessagesByID msgs) id = some m →
      isProtectedMessage m (normalizeConfig cfg) = true := by
    intro m hm
    obtain ⟨hmem, hid⟩ := buildMessagesByID_get_mem hm
    exact hprot m hmem hid
  obtain ⟨i1, i2, _, i4⟩ := pruneLoop_protected_invariant (buildMessagesByID msgs)
    (normalizeConfig cfg) reason dID now id hpr ids s [] [] []
  refine ⟨by simpa [pruneByIDs] using i1, by simpa [pruneByIDs] using i2 (by simp), ?_, ?_⟩
  · rintro ⟨hin, hex, hhas⟩
    have hsome := buildMessagesByID_isSome hex
    simpa [pruneByIDs] using i4 ⟨hin, hsome, hhas⟩
  · have hprot' : ∀ m ∈ msgs, m.id = id →
        isProtectedMessage m (normalizeConfig (normalizeConfig cfg).toRaw) = true := by
      rw [normalizeConfig_toRaw]; exact hprot
    have hgen : ∀ (idsx : List String),
        id ∉ (pruneByIDs msgs s (normalizeConfig cfg).toRaw idsx "sweep" none now2).1.prunedIDs :=
      fun idsx => pruneByIDs_not_pruned_of_protected msgs s _ idsx "sweep" none now2 id hprot'
    simp only [sweep]
    exact hgen _

/-- C4 (amended) witness: a protected, not-yet-pruned message targeted by
ID ends up in `protectedIDs`, is not pruned, and survives a sweep. -/
theorem C4_protection_amended_witness :
    jsMapGet (pruneByIDs [c4Message] createState emptyRawConfig ["t1"] "manual" none 0).2.prunedByID
        "t1" = jsMapGet createState.prunedByID "t1"
    ∧ "t1" ∉ (pruneByIDs [c4Message] createState emptyRawConfig ["t1"] "manual" none 0).1.prunedIDs
    ∧ "t1" ∈ (pruneByIDs [c4Message] createState emptyRawConfig ["t1"] "manual" none 0).1.protectedIDs
    ∧ "t1" ∉ (sweep [c4Message] createState emptyRawConfig none 1).1.prunedIDs := by
  have h := C4_protection_amended [c4Message] createState emptyRawConfig ["t1"] "manual" none 0
    none 1 "t1" (by decide)
  exact ⟨h.1, h.2.1, h.2.2.1 ⟨by decide, ⟨c4Message, by decide, by decide⟩, by decide⟩, h.2.2.2⟩

/-! Helper lemmas about the inventory. -/

theorem getPrunableInventory_prunedByID (msgs : List DcpMessage) (s : DcpState)
    (cfg : RawConfig) : ((getPrunableInventory msgs s cfg).2).prunedByID = s.prunedByID := by
  simp only [getPrunableInventory]
  split <;> rfl

theorem numberEntries_length : ∀ (i : Nat) (es : List BaseEntry),
    (numberEntries i es).length = es.length := by
  intro i es
  induction es generalizing i with
  | nil => rfl
  | cons e rest ih => simp [numberEntries, ih]

theorem numberEntries_map_id : ∀ (i : Nat) (es : List BaseEntry),
    (numberEntries i es).map (fun e => e.id) =
      (List.range es.length).map (fun k => toString (i + k + 1)) := by
  intro i es
  induction es generalizing i with
  | nil => rfl
  | cons e rest ih =>
    simp only [numberEntries, List.map_cons, List.length_cons, List.range_succ_eq_map,
      List.map_map, ih]
    refine congrArg (List.cons _) ?_
    apply List.map_congr_left
    intro a _
    simp only [Function.comp_apply]
    congr 1
    omega

theorem numberEntries_map_messageID : ∀ (i : Nat) (es : List BaseEntry),
    (numberEntries i es).map (fun e => e.messageID) = es.map (fun e => e.messageID) := by
  intro i es
  induction es generalizing i with
  | nil => rfl
  | cons e rest ih => simp [numberEntries, ih]

theorem joinBar_cons_length (x : String) (xs : List String) :
    x.length ≤ (joinBar (x :: xs)).length := by
  cases xs with
  | nil => simp [joinBar]
  | cons y rest =>
    simp only [joinBar, String.length_append]
    omega

theorem entriesSignature_ne_empty {es : List BaseEntry} (h : es ≠ []) :
    entriesSignature es ≠ "" := by
  cases es with
  | nil => exact absurd rfl h
  | cons e rest =>
    intro hcon
    have h1 : (e.messageID ++ ":" ++ toString e.chars).length ≤
        (entriesSignature (e :: rest)).length := by
      simpa [entriesSignature] using
        joinBar_cons_length (e.messageID ++ ":" ++ toString e.chars) (rest.map _)
    rw [hcon] at h1
    have h0 : ("" : String).length = 0 := rfl
    rw [h0, String.length_append, String.length_append] at h1
    have hc1 : (":" : String).length = 1 := rfl
    rw [hc1] at h1
    omega

/-- C3 counterexample: the signature string does not determine the
prunable set, because message ids may contain the separator characters '|'
and ':'.  After a first inventory call on `c3CollisionMessagesA` (ids "a"
and "b:2|m2") populates the cache with signature "a:1|b:2|m2:3", two
consecutive calls on `c3CollisionMessagesB` (ids "a:1|b" and "m2", same
signature string, same entry count) both hit the cache: the prunable set
is unchanged between them and the second returns the cached list, yet the
entries' message ids are those of the OLD prunable set, not "the prunable
messages in document order" of the current one, refuting the claim's
numbering clause at this state. -/
theorem C3_counterexample :
    baseEntries c3CollisionMessagesB
        (getPrunableInventory c3CollisionMessagesB
          (getPrunableInventory c3CollisionMessagesA createState emptyRawConfig).2
          emptyRawConfig).2 (normalizeConfig emptyRawConfig) =
      baseEntries c3CollisionMessagesB
        (getPrunableInventory c3CollisionMessagesA createState emptyRawConfig).2
        (normalizeConfig emptyRawConfig)
    ∧ (getPrunableInventory c3CollisionMessagesB
        (getPrunableInventory c3CollisionMessagesB
          (getPrunableInventory c3CollisionMessagesA createState emptyRawConfig).2
          emptyRawConfig).2 emptyRawConfig).1 =
      (getPrunableInventory c3CollisionMessagesB
        (getPrunableInventory c3CollisionMessagesA createState emptyRawConfig).2
        emptyRawConfig).1
    ∧ (getPrunableInventory c3CollisionMessagesB
        (getPrunableInventory c3CollisionMessagesB
          (getPrunableInventory c3CollisionMessagesA createState emptyRawConfig).2
          emptyRawConfig).2 emptyRawConfig).1.map (fun e => e.messageID) =
      ["a", "b:2|m2"]
    ∧ (baseEntries c3CollisionMessagesB
        (getPrunableInventory c3CollisionMessagesB
          (getPrunableInventory c3CollisionMessagesA createState emptyRawConfig).2
          emptyRawConfig).2 (normalizeConfig emptyRawConfig)).map (fun e => e.messageID) =
      ["a:1|b", "m2"]
    ∧ (["a", "b:2|m2"] : List String) ≠ ["a:1|b", "m2"] :=
  ⟨by decide, by decide, by decide, by decide, by decide⟩

/-- C3 amended: for every message list, state and config, if the ordered
prunable set and per-entry sizes are unchanged between two consecutive
`getPrunableInventory` calls, the second call returns the very entry list
cached in the state by the first call (the embedding's rendering of
reference equality) and leaves the state untouched — this stability holds
unconditionally.  The numbering clause holds whenever the first call
recomputes, i.e. whenever the stored cache fails the signature test at the
first call: then the returned entries carry numeric IDs "1", "2", ...
assigned to the prunable messages in document order.  (When the stored
cache passes the signature test, the calls return the stored entries
as-is, which — per the counterexample — may number a different prunable
set whose signature merely collides as a string.) -/
theorem C3_inventory_stability_amended (msgs1 msgs2 : List DcpMessage) (s0 : DcpState)
    (cfg : RawConfig)
    (hSame : baseEntries msgs2 (getPrunableInventory msgs1 s0 cfg).2 (normalizeConfig cfg) =
      baseEntries msgs1 s0 (normalizeConfig cfg)) :
    (getPrunableInventory msgs2 (getPrunableInventory msgs1 s0 cfg).2 cfg).1 =
      (getPrunableInventory msgs1 s0 cfg).1
    ∧ (getPrunableInventory msgs2 (getPrunableInventory msgs1 s0 cfg).2 cfg).1 =
      ((getPrunableInventory msgs1 s0 cfg).2).inventory.entries
    ∧ (getPrunableInventory msgs2 (getPrunableInventory msgs1 s0 cfg).2 cfg).2 =
      (getPrunableInventory msgs1 s0 cfg).2
    ∧ ((s0.inventory.signature ==
          entriesSignature (baseEntries msgs1 s0 (normalizeConfig cfg)) &&
        s0.inventory.entries.length ==
          (baseEntries msgs1 s0 (normalizeConfig cfg)).length) = false →
        (getPrunableInventory msgs1 s0 cfg).1.map (fun e => e.id) =
          (List.range (baseEntries msgs1 s0 (normalizeConfig cfg)).length).map
            (fun k => toString (k + 1))
        ∧ (getPrunableInventory msgs1 s0 cfg).1.map (fun e => e.messageID) =
          (baseEntries msgs1 s0 (normalizeConfig cfg)).map (fun e => e.messageID)) := by
  by_cases hcond : (s0.inventory.signature ==
      entriesSignature (baseEntries msgs1 s0 (normalizeConfig cfg)) &&
      s0.inventory.entries.length ==
        (baseEntries msgs1 s0 (normalizeConfig cfg)).length) = true
  · -- The first call hits the cache and returns the stored entries.
    have hcomp := hcond
    rw [Bool.and_eq_true] at hcomp
    obtain ⟨hsig, hlen⟩ := hcomp
    have hF : getPrunableInventory msgs1 s0 cfg = (s0.inventory.entries, s0) := by
      simp only [getPrunableInventory]
      split
      · rfl
      · rename_i hcond2
        exact absurd hcond hcond2
    have hSame2 := hSame
    simp only [hF] at hSame2
    have hG : getPrunableInventory msgs2 (getPrunableInventory msgs1 s0 cfg).2 cfg =
        (((getPrunableInventory msgs1 s0 cfg).2).inventory.entries,
         (getPrunableInventory msgs1 s0 cfg).2) := by
      simp only [hF]
      simp only [getPrunableInventory]
      split
      · rfl
      · rename_i hcond2
        exfalso
        apply hcond2
        rw [Bool.and_eq_true, hSame2]
        exact ⟨hsig, hlen⟩
    refine ⟨?_, ?_, ?_, ?_⟩
    · rw [hG, hF]
    · rw [hG]
    · rw [hG]
    · intro hfalse
      rw [hfalse] at hcond
      exact absurd hcond (by simp)
  · -- The first call misses the cache and recomputes the numbered inventory.
    have hF : getPrunableInventory msgs1 s0 cfg =
        (numberEntries 0 (baseEntries msgs1 s0 (normalizeConfig cfg)),
         { s0 with inventory :=
            { signature := entriesSignature (baseEntries msgs1 s0 (normalizeConfig cfg))
              entries := numberEntries 0 (baseEntries msgs1 s0 (normalizeConfig cfg))
              numericToMessageID :=
                (numberEntries 0 (baseEntries msgs1 s0 (normalizeConfig cfg))).foldl
                  (fun acc e => jsMapSet acc e.id e.messageID) []
              messageToNumericID :=
                (numberEntries 0 (baseEntries msgs1 s0 (normalizeConfig cfg))).foldl
                  (fun acc e => jsMapSet acc e.messageID e.id) [] } }) := by
      simp only [getPrunableInventory]
      split
      · rename_i hcond2
        exact absurd hcond2 hcond
      · rfl
    have hSame' := hSame
    simp only [hF] at hSame'
    have hG : getPrunableInventory msgs2 (getPrunableInventory msgs1 s0 cfg).2 cfg =
        (((getPrunableInventory msgs1 s0 cfg).2).inventory.entries,
         (getPrunableInventory msgs1 s0 cfg).2) := by
      simp only [hF]
      simp only [getPrunableInventory]
      split
      · rfl
      · rename_i hcond2
        exfalso
        apply hcond2
        rw [Bool.and_eq_true, hSame']
        refine ⟨by simp, by simp [numberEntries_length]⟩
    refine ⟨?_, ?_, ?_, ?_⟩
    · rw [hG, hF]
    · rw [hG]
    · rw [hG]
    · intro _
      constructor
      · rw [hF]
        show (numberEntries 0 (baseEntries msgs1 s0 (normalizeConfig cfg))).map
          (fun e => e.id) = _
        rw [numberEntries_map_id]
        apply List.map_congr_left
        intro a _
        congr 1
        omega
      · rw [hF]
        show (numberEntries 0 (baseEntries msgs1 s0 (normalizeConfig cfg))).map
          (fun e => e.messageID) = _
        rw [numberEntries_map_messageID]

/-- C3 witness: two consecutive inventory calls on a fresh session with
five prunable tool messages; the fresh cache fails the signature test, so
both the stability and the numbering conclusions apply. -/
theorem C3_inventory_stability_amended_witness :
    (getPrunableInventory sweepScenarioMessages
        (getPrunableInventory sweepScenarioMessages createState emptyRawConfig).2
        emptyRawConfig).1 =
      (getPrunableInventory sweepScenarioMessages createState emptyRawConfig).1
    ∧ (getPrunableInventory sweepScenarioMessages createState emptyRawConfig).1.map
        (fun e => e.id) =
      (List.range (baseEntries sweepScenarioMessages createState
        (normalizeConfig emptyRawConfig)).length).map (fun k => toString (k + 1)) := by
  have h := C3_inventory_stability_amended sweepScenarioMessages sweepScenarioMessages
    createState emptyRawConfig (by decide)
  exact ⟨h.1, (h.2.2.2 (by decide)).1⟩

/-! Helper lemma about the transformed view. -/

theorem ctvGo_fst : ∀ (msgs : List DcpMessage) (s : DcpState),
    (ctvGo msgs s).1 = msgs.map (fun m =>
      match jsMapGet s.prunedByID m.id with
      | none => m
      | some record =>
        { m with
          content := JsContent.strC (prunedPlaceholder m.id record)
          meta := some ⟨some ⟨true, m.id, record.reason, record.distillationID⟩⟩ }) := by
  intro msgs
  induction msgs with
  | nil => intro s; rfl
  | cons m rest ih =>
    intro s
    simp only [ctvGo, List.map_cons]
    rw [ih]

/-- C7: in the view produced by `createTransformedView`, a message carrying
a `PrunedRecord` has its content replaced by exactly
`[dcp-pruned id=<messageID> reason=<reason>]`, with ` distilled=<id>`
appended when the record carries a distillation ID; a message with no
`PrunedRecord` keeps its content unchanged. -/
theorem C7_transformed_view_placeholder (msgs : List DcpMessage) (s : DcpState) (i : Nat) :
    ((createTransformedView msgs s).1.get? i).map (fun m => m.content) =
      (msgs.get? i).map (fun m =>
        match jsMapGet s.prunedByID m.id with
        | some record => JsContent.strC ("[dcp-pruned id=" ++ m.id ++ " reason=" ++
            record.reason ++
            (match record.distillationID with
             | some d => " distilled=" ++ d
             | none => "") ++ "]")
        | none => m.content) := by
  rw [createTransformedView, ctvGo_fst, List.get?_map]
  cases hm : msgs.get? i with
  | none => rfl
  | some m =>
    simp only [Option.map_some']
    cases hr : jsMapGet s.prunedByID m.id with
    | none => rfl
    | some record => rfl

/-! Helper lemmas for the distillation pipeline of `tools.js`. -/

theorem ntGo_sound : ∀ (raws : List RawTarget) (seen : List String) (t : DistillTarget),
    t ∈ ntGo raws seen → ∃ rt ∈ raws, rt.id = some t.id ∧
      t.distillation = (match rt.distillation with
        | some sTxt => if 0 < (jsTrim sTxt).length then jsTrim sTxt
            else DEFAULT_DISTILLATION_SUMMARY
        | none => DEFAULT_DISTILLATION_SUMMARY) := by
  intro raws
  induction raws with
  | nil => intro seen t ht; simp [ntGo] at ht
  | cons rt rest ih =>
    intro seen t ht
    simp only [ntGo] at ht
    split at ht
    · obtain ⟨rt', hmem, hp⟩ := ih seen t ht
      exact ⟨rt', List.mem_cons_of_mem _ hmem, hp⟩
    · rename_i hnid
      split at ht
      · obtain ⟨rt', hmem, hp⟩ := ih _ t ht
        exact ⟨rt', List.mem_cons_of_mem _ hmem, hp⟩
      · rcases List.mem_cons.mp ht with he | hmem
        · subst he
          refine ⟨rt, by simp, ?_, rfl⟩
          cases hrt : rt.id with
          | none => rw [hrt] at hnid; simp at hnid
          | some sId =>
            rw [hrt] at hnid
            by_cases hlen : 0 < sId.length
            · simp only [hrt, hlen, if_true]
            · simp [hlen] at hnid
        · obtain ⟨rt', hmem', hp⟩ := ih _ t hmem
          exact ⟨rt', List.mem_cons_of_mem _ hmem', hp⟩

theorem ddGo_summaries (messages : List DcpMessage) (config : ExtensionConfig) (now : Nat) :
    ∀ (targets : List DistillTarget) (s : DcpState) (acc : DistillAcc),
      ∀ r ∈ (ddGo messages config now targets s acc).1.distillations,
        r ∈ acc.distillations ∨ ∃ t ∈ targets, r.summary = t.distillation := by
  intro targets
  induction targets with
  | nil => intro s acc r hr; simp only [ddGo] at hr; exact Or.inl hr
  | cons t rest ih =>
    intro s acc r hr
    simp only [ddGo] at hr
    split at hr
    · rcases ih _ _ r hr with h | ⟨t', hm, hs⟩
      · exact Or.inl h
      · exact Or.inr ⟨t', List.mem_cons_of_mem _ hm, hs⟩
    · split at hr
      · rcases ih _ _ r hr with h | ⟨t', hm, hs⟩
        · exact Or.inl h
        · exact Or.inr ⟨t', List.mem_cons_of_mem _ hm, hs⟩
      · rcases ih _ _ r hr with h | ⟨t', hm, hs⟩
        · rcases List.mem_append.mp h with h' | h'
          · exact Or.inl h'
          · right
            refine ⟨t, by simp, ?_⟩
            have hre := List.mem_singleton.mp h'
            rw [hre]
            rfl
        · exact Or.inr ⟨t', List.mem_cons_of_mem _ hm, hs⟩

/-- C6 counterexample: the caller supplies the summary text `" hi "` for
inventory target "1", but the recorded `DistillationRecord.summary` is the
trimmed `"hi"` — not exactly the text the caller provided
(`normalizeTargets` trims, and substitutes a fixed placeholder when the
trimmed text is empty). -/
theorem C6_counterexample :
    ((dcpDistill createState (normalizeConfig emptyRawConfig) [c6Message]
        (some [{ id := some "1", distillation := some " hi " }]) 0).1.distillations.map
      (fun r => r.summary)) = ["hi"]
    ∧ (" hi " : String) ≠ "hi" := by
  exact ⟨by decide, by decide⟩

/-- C6 (amended): every `DistillationRecord` created by the distill
operation stores the summary of one of its normalized targets, and each
normalized target's summary is the caller's text trimmed of surrounding
whitespace — or the fixed placeholder text when the caller provided no
non-blank text.  The core performs no summarization of message content. -/
theorem C6_distill_summary_amended (state : DcpState) (config : ExtensionConfig)
    (messages : List DcpMessage) (rawTargets : Option (List RawTarget)) (now : Nat) :
    (∀ r ∈ (dcpDistill state config messages rawTargets now).1.distillations,
       ∃ t ∈ normalizeTargets rawTargets, r.summary = t.distillation)
    ∧ (∀ t ∈ normalizeTargets rawTargets, ∃ rt ∈ rawTargets.getD [],
        rt.id = some t.id ∧
        t.distillation = (match rt.distillation with
          | some sTxt => if 0 < (jsTrim sTxt).length then jsTrim sTxt
              else DEFAULT_DISTILLATION_SUMMARY
          | none => DEFAULT_DISTILLATION_SUMMARY)) := by
  constructor
  · intro r hr
    simp only [dcpDistill] at hr
    have := ddGo_summaries messages config now (normalizeTargets rawTargets)
      (getPrunableInventory messages state config.toRaw).2
      { distillations := [], prunedIDs := [], protectedIDs := [], missingIDs := []
        unresolvedInventoryIDs := [] } r hr
    rcases this with h | h
    · simp at h
    · exact h
  · intro t ht
    cases rawTargets with
    | none => simp [normalizeTargets] at ht
    | some raws =>
      simpa using ntGo_sound raws [] t (by simpa [normalizeTargets] using ht)

/-- C6 (amended) witness: the normalized target built from the raw target
with id "1" and summary text `" hi "` traces back to that raw target with
the trimmed summary `"hi"`. -/
theorem C6_distill_summary_amended_witness :
    ∃ rt ∈ [({ id := some "1", distillation := some " hi " } : RawTarget)],
      rt.id = some "1" ∧
      ("hi" : String) = (match rt.distillation with
        | some sTxt => if 0 < (jsTrim sTxt).length then jsTrim sTxt
            else DEFAULT_DISTILLATION_SUMMARY
        | none => DEFAULT_DISTILLATION_SUMMARY) := by
  have h := (C6_distill_summary_amended createState (normalizeConfig emptyRawConfig)
    [c6Message] (some [{ id := some "1", distillation := some " hi " }]) 0).2
    { id := "1", distillation := "hi" } (by decide)
  simpa using h

end DCP

namespace Dedup

/-! Helper lemmas about the tool-result tracker and nudge injection. -/

theorem ctrParts_spec : ∀ (ps : List ChatPartR) (t : ToolTracker) (nc : Nat),
    (ctrParts ps t nc).2.toolResultCount = t.toolResultCount
    ∧ nc ≤ (ctrParts ps t nc).1
    ∧ (ctrParts ps t nc).1 + t.seenToolResultIds.length =
      nc + (ctrParts ps t nc).2.seenToolResultIds.length := by
  intro ps
  induction ps with
  | nil => intro t nc; exact ⟨rfl, Nat.le_refl _, by simp [ctrParts]⟩
  | cons p rest ih =>
    intro t nc
    simp only [ctrParts]
    split
    · split
      · exact ih t nc
      · obtain ⟨h1, h2, h3⟩ := ih
          { t with seenToolResultIds :=
              t.seenToolResultIds ++ [jsToLower (p.tool_use_id.getD "")] } (nc + 1)
        refine ⟨h1, by omega, ?_⟩
        simp only [List.length_append, List.length_cons, List.length_nil] at h3
        omega
    · exact ih t nc

theorem ctrGo_spec : ∀ (msgs : List ChatMsg) (t : ToolTracker) (nc : Nat),
    (ctrGo msgs t nc).2.toolResultCount = t.toolResultCount
    ∧ nc ≤ (ctrGo msgs t nc).1
    ∧ (ctrGo msgs t nc).1 + t.seenToolResultIds.length =
      nc + (ctrGo msgs t nc).2.seenToolResultIds.length := by
  intro msgs
  induction msgs with
  | nil => intro t nc; exact ⟨rfl, Nat.le_refl _, by simp [ctrGo]⟩
  | cons m rest ih =>
    intro t nc
    simp only [ctrGo]
    split
    · split
      · exact ih t nc
      · obtain ⟨h1, h2, h3⟩ := ih
          { t with seenToolResultIds :=
              t.seenToolResultIds ++ [jsToLower (m.tool_call_id.getD "")] } (nc + 1)
        refine ⟨h1, by omega, ?_⟩
        simp only [List.length_append, List.length_cons, List.length_nil] at h3
        omega
    · cases hrole : (m.role == some "user") with
      | true =>
        cases hcont : m.content with
        | arr parts =>
          simp only [hrole, hcont]
          obtain ⟨p1, p2, p3⟩ := ctrParts_spec parts t nc
          obtain ⟨g1, g2, g3⟩ := ih (ctrParts parts t nc).2 (ctrParts parts t nc).1
          exact ⟨by rw [g1, p1], by omega, by omega⟩
        | missing => simp only [hrole, hcont]; exact ih t nc
        | str s => simp only [hrole, hcont]; exact ih t nc
      | false =>
        cases hcont : m.content <;> simp only [hrole, hcont] <;> exact ih t nc

theorem countToolResults_count (msgs : List ChatMsg) (t : ToolTracker) :
    (countToolResults msgs t).2.toolResultCount =
      t.toolResultCount + (countToolResults msgs t).1 := by
  simp only [countToolResults]
  rw [(ctrGo_spec msgs t 0).1]

theorem countToolResults_seen (msgs : List ChatMsg) (t : ToolTracker) :
    (countToolResults msgs t).2.seenToolResultIds.length =
      t.seenToolResultIds.length + (countToolResults msgs t).1 := by
  simp only [countToolResults]
  have h := (ctrGo_spec msgs t 0).2.2
  omega

theorem injectNudge_tracker (msgs : List ChatMsg) (t : ToolTracker) (x : String) (f : Nat) :
    (injectNudge msgs t x f).2.1 = (countToolResults msgs t).2 := by
  simp only [injectNudge]
  split
  · split <;> rfl
  · rfl

theorem injectNudge_flag (msgs : List ChatMsg) (t : ToolTracker) (x : String) (f : Nat) :
    (injectNudge msgs t x f).2.2 =
      decide (t.toolResultCount / f < (countToolResults msgs t).2.toolResultCount / f) := by
  simp only [injectNudge]
  split
  · rename_i hnc
    split
    · rename_i hlt; simp [hlt]
    · rename_i hlt; simp [hlt]
  · rename_i hnc
    have h0 : (countToolResults msgs t).1 = 0 := by omega
    have hc := countToolResults_count msgs t
    rw [hc, h0]
    simp

theorem injectNudge_msgs (msgs : List ChatMsg) (t : ToolTracker) (x : String) (f : Nat) :
    (injectNudge msgs t x f).1 =
      msgs ++ (if (injectNudge msgs t x f).2.2 then [nudgeMessage x] else []) := by
  simp only [injectNudge]
  split
  · split <;> simp
  · simp

theorem runNudges_append (f : Nat) (x : String) :
    ∀ (L1 L2 : List (List ChatMsg)) (t : ToolTracker),
      runNudges f x (L1 ++ L2) t =
        ((runNudges f x L1 t).1 ++ (runNudges f x L2 (runNudges f x L1 t).2).1,
         (runNudges f x L2 (runNudges f x L1 t).2).2) := by
  intro L1
  induction L1 with
  | nil => intro L2 t; simp [runNudges]
  | cons msgs rest ih =>
    intro L2 t
    simp only [runNudges, List.cons_append, List.append_eq]
    rw [ih]

theorem runNudges_length (f : Nat) (x : String) :
    ∀ (L : List (List ChatMsg)) (t : ToolTracker),
      (runNudges f x L t).1.length = L.length := by
  intro L
  induction L with
  | nil => intro t; rfl
  | cons msgs rest ih => intro t; simp [runNudges, ih]

theorem runNudges_count_mono (f : Nat) (x : String) :
    ∀ (L : List (List ChatMsg)) (t : ToolTracker),
      t.toolResultCount ≤ (runNudges f x L t).2.toolResultCount := by
  intro L
  induction L with
  | nil => intro t; exact Nat.le_refl _
  | cons msgs rest ih =>
    intro t
    simp only [runNudges]
    refine le_trans ?_ (ih _)
    rw [injectNudge_tracker, countToolResults_count]
    omega

theorem runNudges_seen (f : Nat) (x : String) :
    ∀ (L : List (List ChatMsg)) (t : ToolTracker),
      (runNudges f x L t).2.seenToolResultIds.length + t.toolResultCount =
        (runNudges f x L t).2.toolResultCount + t.seenToolResultIds.length := by
  intro L
  induction L with
  | nil => intro t; simp [runNudges]; omega
  | cons msgs rest ih =>
    intro t
    simp only [runNudges]
    have h1 := ih (injectNudge msgs t x f).2.1
    have h2 : (injectNudge msgs t x f).2.1.seenToolResultIds.length =
        t.seenToolResultIds.length + (countToolResults msgs t).1 := by
      rw [injectNudge_tracker]
      exact countToolResults_seen msgs t
    have h3 : (injectNudge msgs t x f).2.1.toolResultCount =
        t.toolResultCount + (countToolResults msgs t).1 := by
      rw [injectNudge_tracker]
      exact countToolResults_count msgs t
    omega

theorem runNudges_take_succ (f : Nat) (x : String) (L : List (List ChatMsg))
    (t : ToolTracker) (k : Nat) (hk : k < L.length) :
    runNudges f x (L.take (k + 1)) t =
      ((runNudges f x (L.take k) t).1 ++
        [(injectNudge (L.get ⟨k, hk⟩) (runNudges f x (L.take k) t).2 x f).2.2],
       (injectNudge (L.get ⟨k, hk⟩) (runNudges f x (L.take k) t).2 x f).2.1) := by
  rw [List.take_succ]
  rw [runNudges_append]
  have hg : L[k]? = some (L.get ⟨k, hk⟩) := by
    rw [List.getElem?_eq_getElem hk]
    rfl
  rw [hg]
  simp [runNudges]

theorem runNudges_flag_at (f : Nat) (x : String) (L : List (List ChatMsg))
    (t : ToolTracker) (k : Nat) (hk : k < L.length) :
    (runNudges f x L t).1[k]? =
      some ((injectNudge (L.get ⟨k, hk⟩) (runNudges f x (L.take k) t).2 x f).2.2) := by
  conv_lhs => rw [← List.take_append_drop k L]
  rw [runNudges_append]
  have hlen : (runNudges f x (L.take k) t).1.length = k := by
    rw [runNudges_length]
    simp [List.length_take]
    omega
  rw [List.getElem?_append_right (by omega)]
  rw [hlen]
  have hdrop : L.drop k = L.get ⟨k, hk⟩ :: L.drop (k + 1) := List.drop_eq_get_cons hk
  rw [hdrop]
  simp [runNudges]

theorem runNudges_prefix_le (f : Nat) (x : String) (L : List (List ChatMsg))
    (t : ToolTracker) (j : Nat) :
    (runNudges f x (L.take j) t).2.toolResultCount ≤
      (runNudges f x L t).2.toolResultCount := by
  conv_rhs => rw [← List.take_append_drop j L]
  rw [runNudges_append]
  exact runNudges_count_mono f x _ _

theorem runNudges_count_true (x : String) :
    ∀ (L : List (List ChatMsg)) (t : ToolTracker),
      (runNudges 5 x L t).2.toolResultCount ≤ 9 →
      (runNudges 5 x L t).1.count true =
        (if t.toolResultCount / 5 < (runNudges 5 x L t).2.toolResultCount / 5 then 1 else 0) := by
  intro L
  induction L with
  | nil => intro t h; simp [runNudges]
  | cons msgs rest ih =>
    intro t h
    simp only [runNudges] at h ⊢
    rw [List.count_cons]
    have hflag := injectNudge_flag msgs t x 5
    have htr := injectNudge_tracker msgs t x 5
    rw [htr] at h
    simp only [htr]
    have hIH := ih (countToolResults msgs t).2 h
    rw [hIH, hflag]
    have hc1 := countToolResults_count msgs t
    have hcF := runNudges_count_mono 5 x rest (countToolResults msgs t).2
    simp only [beq_iff_eq, decide_eq_true_eq]
    split_ifs <;> omega

/-- C8: with nudge frequency 5 and a fresh tracker, across any number of
`injectNudge` calls whose cumulative distinct tool-result count stays below
10 (a single bucket crossing): a call appends exactly one nudge message at
the end of its message array when and only when it injects; the call at
position `k` injects exactly when the cumulative distinct count first
reaches 5 during that call — never before, and never twice; the total
number of injections is one when the count reaches 5 and zero otherwise;
and the cumulative count equals the number of distinct observed ids. -/
theorem C8_nudge_bucket (nudgeText : String) (msgsList : List (List ChatMsg))
    (hB : (runNudges 5 nudgeText msgsList createToolTracker).2.toolResultCount ≤ 9) :
    (∀ (msgs : List ChatMsg) (t : ToolTracker),
       (injectNudge msgs t nudgeText 5).1 =
         msgs ++ (if (injectNudge msgs t nudgeText 5).2.2 then [nudgeMessage nudgeText] else []))
    ∧ (∀ k : Nat,
        ((runNudges 5 nudgeText msgsList createToolTracker).1[k]? = some true ↔
          (k < msgsList.length ∧
            (runNudges 5 nudgeText (msgsList.take k) createToolTracker).2.toolResultCount < 5 ∧
            5 ≤ (runNudges 5 nudgeText (msgsList.take (k + 1))
                  createToolTracker).2.toolResultCount)))
    ∧ (runNudges 5 nudgeText msgsList createToolTracker).1.count true =
        (if 5 ≤ (runNudges 5 nudgeText msgsList createToolTracker).2.toolResultCount
         then 1 else 0)
    ∧ (runNudges 5 nudgeText msgsList createToolTracker).2.seenToolResultIds.length =
        (runNudges 5 nudgeText msgsList createToolTracker).2.toolResultCount := by
  refine ⟨fun msgs t => injectNudge_msgs msgs t nudgeText 5, ?_, ?_, ?_⟩
  · intro k
    by_cases hk : k < msgsList.length
    · rw [runNudges_flag_at 5 nudgeText msgsList createToolTracker k hk]
      have hsucc := runNudges_take_succ 5 nudgeText msgsList createToolTracker k hk
      have hnext : (runNudges 5 nudgeText (msgsList.take (k + 1))
          createToolTracker).2.toolResultCount =
          (countToolResults (msgsList.get ⟨k, hk⟩)
            (runNudges 5 nudgeText (msgsList.take k) createToolTracker).2).2.toolResultCount := by
        rw [hsucc]
        simp only
        rw [injectNudge_tracker]
      have hflag := injectNudge_flag (msgsList.get ⟨k, hk⟩)
        (runNudges 5 nudgeText (msgsList.take k) createToolTracker).2 nudgeText 5
      rw [hflag, hnext]
      have hmono : (runNudges 5 nudgeText (msgsList.take k)
          createToolTracker).2.toolResultCount ≤
          (countToolResults (msgsList.get ⟨k, hk⟩)
            (runNudges 5 nudgeText (msgsList.take k) createToolTracker).2).2.toolResultCount := by
        rw [countToolResults_count]; omega
      have hbound : (countToolResults (msgsList.get ⟨k, hk⟩)
          (runNudges 5 nudgeText (msgsList.take k) createToolTracker).2).2.toolResultCount ≤ 9 := by
        have hple := runNudges_prefix_le 5 nudgeText msgsList createToolTracker (k + 1)
        rw [hnext] at hple
        omega
      constructor
      · intro hsome
        have hd : decide ((runNudges 5 nudgeText (msgsList.take k)
            createToolTracker).2.toolResultCount / 5 <
            (countToolResults (msgsList.get ⟨k, hk⟩)
              (runNudges 5 nudgeText (msgsList.take k) createToolTracker).2).2.toolResultCount / 5) =
            true := by
          exact Option.some_injective _ hsome
        rw [decide_eq_true_eq] at hd
        exact ⟨hk, by omega, by omega⟩
      · rintro ⟨_, h1, h2⟩
        have : ((runNudges 5 nudgeText (msgsList.take k)
            createToolTracker).2.toolResultCount / 5 <
            (countToolResults (msgsList.get ⟨k, hk⟩)
              (runNudges 5 nudgeText (msgsList.take k) createToolTracker).2).2.toolResultCount / 5) := by
          omega
        rw [decide_eq_true_eq.mpr this]
    · have hnone : (runNudges 5 nudgeText msgsList createToolTracker).1[k]? = none := by
        rw [List.getElem?_eq_none]
        rw [runNudges_length]
        omega
      rw [hnone]
      simp
      omega
  · have h := runNudges_count_true nudgeText msgsList createToolTracker hB
    rw [h]
    have : createToolTracker.toolResultCount = 0 := rfl
    rw [this]
    split_ifs <;> omega
  · have h := runNudges_seen 5 nudgeText msgsList createToolTracker
    simp only [createToolTracker] at h
    simpa using h

/-- C8 witness: two calls observing three then two distinct tool results
inject exactly one nudge. -/
theorem C8_nudge_bucket_witness :
    (runNudges 5 "nudge" dedupScenarioCalls createToolTracker).1.count true =
      (if 5 ≤ (runNudges 5 "nudge" dedupScenarioCalls createToolTracker).2.toolResultCount
       then 1 else 0) :=
  (C8_nudge_bucket "nudge" dedupScenarioCalls (by decide)).2.2.1

/-! Helper lemmas about the match resolver. -/

theorem femGo_eq_nil (searchString : String) :
    ∀ (msgs : List WithParts) (i : Nat),
      (∀ m ∈ msgs, jsIncludes (extractMessageContent m) searchString = false) →
      femGo searchString msgs i = [] := by
  intro msgs
  induction msgs with
  | nil => intro i _; rfl
  | cons m rest ih =>
    intro i h
    have hm := h m (by simp)
    simp only [femGo, hm, Bool.false_eq_true, if_false]
    exact ih (i + 1) (fun m' hm' => h m' (List.mem_cons_of_mem _ hm'))

theorem femGo_len (searchString : String) :
    ∀ (msgs : List WithParts) (i : Nat),
      (femGo searchString msgs i).length =
        msgs.countP (fun m => jsIncludes (extractMessageContent m) searchString) := by
  intro msgs
  induction msgs with
  | nil => intro i; rfl
  | cons m rest ih =>
    intro i
    by_cases hm : jsIncludes (extractMessageContent m) searchString
    · simp [femGo, hm, List.countP_cons, ih]
    · simp [femGo, hm, List.countP_cons, ih]

theorem femGo_unique (searchString : String) :
    ∀ (msgs : List WithParts) (i : Nat) (j : Nat) (hj : j < msgs.length),
      msgs.countP (fun m => jsIncludes (extractMessageContent m) searchString) = 1 →
      jsIncludes (extractMessageContent (msgs.get ⟨j, hj⟩)) searchString = true →
      femGo searchString msgs i =
        [{ messageId := (msgs.get ⟨j, hj⟩).info.id, messageIndex := i + j, score := 100
           matchType := MatchType.exact }] := by
  intro msgs
  induction msgs with
  | nil => intro i j hj; simp at hj
  | cons m rest ih =>
    intro i j hj hcount hand
    cases j with
    | zero =>
      have hm : jsIncludes (extractMessageContent m) searchString = true := hand
      rw [List.countP_cons, hm] at hcount
      simp only [if_true] at hcount
      have hrest : rest.countP
          (fun m => jsIncludes (extractMessageContent m) searchString) = 0 := by omega
      have hnil := femGo_eq_nil searchString rest (i + 1)
        (by
          intro m' hm'
          have := List.countP_eq_zero.mp hrest m' hm'
          simpa using this)
      simp [femGo, hm, hnil]
    | succ j' =>
      have hj' : j' < rest.length := by simpa using hj
      by_cases hm : jsIncludes (extractMessageContent m) searchString
      · exfalso
        rw [List.countP_cons, hm] at hcount
        simp only [if_true] at hcount
        have hrest : rest.countP
            (fun m => jsIncludes (extractMessageContent m) searchString) = 0 := by omega
        rw [show ((m :: rest).get ⟨j' + 1, hj⟩) = rest.get ⟨j', hj'⟩ from rfl] at hand
        exact List.countP_eq_zero.mp hrest (rest.get ⟨j', hj'⟩) (rest.get_mem _ _) hand
      · rw [List.countP_cons] at hcount
        simp only [hm, if_false] at hcount
        rw [show ((m :: rest).get ⟨j' + 1, hj⟩) = rest.get ⟨j', hj'⟩ from rfl] at hand ⊢
        have := ih (i + 1) j' hj' (by simpa using hcount) hand
        simp only [femGo, hm, Bool.false_eq_true, if_false]
        rw [this]
        have he : i + 1 + j' = i + (j' + 1) := by omega
        rw [he]

theorem ffmGo_eq_nil (pr : String → String → Nat) (searchString : String) (minScore : Nat) :
    ∀ (msgs : List WithParts) (i : Nat),
      (∀ m ∈ msgs, pr searchString (extractMessageContent m) < minScore) →
      ffmGo pr searchString minScore msgs i = [] := by
  intro msgs
  induction msgs with
  | nil => intro i _; rfl
  | cons m rest ih =>
    intro i h
    have hm := h m (by simp)
    have hn : ¬ minScore ≤ pr searchString (extractMessageContent m) := by omega
    simp only [ffmGo, hn, if_false]
    exact ih (i + 1) (fun m' hm' => h m' (List.mem_cons_of_mem _ hm'))

/-- C5 counterexample: exactly one message (`m2`, the last) contains the
search string as an exact substring, yet `findStringInMessages` (with the
spec-modelled partial-ratio primitive) returns the near-duplicate `m1`
instead — the unique container sits in the last-resort pool, and a
searchable message reaching the fuzzy threshold wins before the last
message is ever consulted. -/
theorem C5_counterexample :
    (c5Messages.countP (fun m => jsIncludes (extractMessageContent m) c5SearchString)) = 1
    ∧ (c5Messages[1]?).map
        (fun m => (m.info.id, jsIncludes (extractMessageContent m) c5SearchString)) =
      some ("m2", true)
    ∧ (c5Messages[0]?).map
        (fun m => (m.info.id, jsIncludes (extractMessageContent m) c5SearchString)) =
      some ("m1", false)
    ∧ (findStringInMessages bestWindowScore c5Messages c5SearchString
        DEFAULT_FUZZY_CONFIG).toOption = some { messageId := "m1", messageIndex := 0 }
    ∧ ("m1" : String) ≠ "m2" := by
  exact ⟨by decide, by decide, by decide, by decide, by decide⟩

/-- C5 (amended): over the searchable pool (all but the last message when
more than one exists), a unique exact-substring container is returned with
its ID and index, for any scoring primitive; two or more exact containers
among the searchable messages fail with AmbiguousMatch; and a unique
container located in the last message is returned via the last-resort path
only when no searchable message reaches the fuzzy score threshold. -/
theorem C5_resolver_amended (pr : String → String → Nat) (messages : List WithParts)
    (searchString : String) (fuzzyConfig : FuzzyConfig) :
    ((searchableMessages messages).countP
        (fun m => jsIncludes (extractMessageContent m) searchString) = 1 →
      ∀ (j : Nat) (hj : j < (searchableMessages messages).length),
        jsIncludes (extractMessageContent ((searchableMessages messages).get ⟨j, hj⟩))
          searchString = true →
        findStringInMessages pr messages searchString fuzzyConfig =
          Except.ok { messageId := ((searchableMessages messages).get ⟨j, hj⟩).info.id
                      messageIndex := j })
    ∧ (2 ≤ (searchableMessages messages).countP
          (fun m => jsIncludes (extractMessageContent m) searchString) →
        findStringInMessages pr messages searchString fuzzyConfig =
          Except.error FindError.ambiguousMatch)
    ∧ ((searchableMessages messages).countP
          (fun m => jsIncludes (extractMessageContent m) searchString) = 0 →
        (∀ m ∈ searchableMessages messages,
          pr searchString (extractMessageContent m) < fuzzyConfig.minScore) →
        ∀ lm, messages.getLast? = some lm →
        jsIncludes (extractMessageContent lm) searchString = true →
        findStringInMessages pr messages searchString fuzzyConfig =
          Except.ok { messageId := lm.info.id, messageIndex := messages.length - 1 }) := by
  refine ⟨?_, ?_, ?_⟩
  · intro hcount j hj hypC
    have hexact := femGo_unique searchString (searchableMessages messages) 0 j hj hcount hypC
    simp only [findStringInMessages, findExactMatches]
    rw [hexact]
    simp
  · intro hcount
    have hlen : 2 ≤ (femGo searchString (searchableMessages messages) 0).length := by
      rw [femGo_len]; exact hcount
    obtain ⟨a, b, tl, hfe⟩ : ∃ a b tl,
        femGo searchString (searchableMessages messages) 0 = a :: b :: tl := by
      cases h1 : femGo searchString (searchableMessages messages) 0 with
      | nil => rw [h1] at hlen; simp at hlen
      | cons a tl1 =>
        cases h2 : tl1 with
        | nil => rw [h1, h2] at hlen; simp at hlen
        | cons b tl => exact ⟨a, b, tl, rfl⟩
    simp only [findStringInMessages, findExactMatches]
    rw [hfe]
  · intro hcount hscore lm hlast hinc
    have hexact : femGo searchString (searchableMessages messages) 0 = [] := by
      apply femGo_eq_nil
      intro m hm
      have := List.countP_eq_zero.mp hcount m hm
      simpa using this
    have hfuzzy : ffmGo pr searchString fuzzyConfig.minScore (searchableMessages messages) 0 =
        [] := ffmGo_eq_nil pr searchString fuzzyConfig.minScore (searchableMessages messages) 0
      hscore
    simp only [findStringInMessages, findExactMatches, findFuzzyMatches]
    rw [hexact, hfuzzy, hlast]
    simp [hinc]

/-- C5 (amended) witness: the unique searchable container of `"x"` is
returned with its ID and index. -/
theorem C5_resolver_amended_witness :
    findStringInMessages bestWindowScore c5WitnessMessages "x" DEFAULT_FUZZY_CONFIG =
      Except.ok { messageId := "a", messageIndex := 0 } := by
  have h := (C5_resolver_amended bestWindowScore c5WitnessMessages "x"
    DEFAULT_FUZZY_CONFIG).1 (by decide) 0 (by decide) (by decide)
  simpa using h

end Dedup

namespace RespFormat

theorem rtoGo_spec (tl pm : String) : ∀ (data : List RespItem),
    (rtoGo tl pm data).1 = data.map (fun item =>
      if item.type == "function_call_output" && (item.call_id.map jsToLower) == some tl then
        { item with output := some pm }
      else item)
    ∧ (rtoGo tl pm data).2 = data.any (fun item =>
        item.type == "function_call_output" && (item.call_id.map jsToLower) == some tl) := by
  intro data
  induction data with
  | nil => exact ⟨rfl, rfl⟩
  | cons item rest ih =>
    simp only [rtoGo, List.map_cons, List.any_cons]
    by_cases hcond : (item.type == "function_call_output" &&
        (item.call_id.map jsToLower) == some tl) = true
    · constructor
      · simp only [hcond, if_true]
        rw [ih.1]
      · simp [hcond]
    · constructor
      · simp only [hcond, if_false, Bool.false_eq_true]
        rw [ih.1]
      · simp only [hcond, if_false, Bool.false_eq_true]
        rw [ih.2]
        simp [hcond]

/-- C9: for the Responses-API adapter, `replaceToolOutput` replaces the
`output` of every `function_call_output` item whose `call_id` equals the
requested tool id case-insensitively — all repeats, not just the first —
leaves every other item and the array length unchanged, and returns true
exactly when at least one item was replaced. -/
theorem C9_replace_tool_output (data : List RespItem) (toolId prunedMessage : String) :
    (replaceToolOutput data toolId prunedMessage).1 = data.map (fun item =>
      if item.type == "function_call_output" &&
          (item.call_id.map jsToLower) == some (jsToLower toolId) then
        { item with output := some prunedMessage }
      else item)
    ∧ (replaceToolOutput data toolId prunedMessage).2 = data.any (fun item =>
        item.type == "function_call_output" &&
          (item.call_id.map jsToLower) == some (jsToLower toolId))
    ∧ (replaceToolOutput data toolId prunedMessage).1.length = data.length := by
  have h := rtoGo_spec (jsToLower toolId) prunedMessage data
  refine ⟨h.1, h.2, ?_⟩
  rw [show (replaceToolOutput data toolId prunedMessage).1 =
    (rtoGo (jsToLower toolId) prunedMessage data).1 from rfl]
  rw [h.1, List.length_map]

end RespFormat
